import Mathlib

/-!
# Verification of the camo ODM core (schema/validation/lifecycle/population)

Shallow embedding of the JavaScript source under `lib/` (base-document.js,
document.js, validate.js, nedbclient.js).  JavaScript runtime values are
modelled by the inductive `JsValue`; promise chains are modelled in the
`Except` monad (a rejected promise is `.error`); object identity, where a
claim depends on it, is modelled by explicit addresses into a store.

`Date.parse` (used by `validate.js/isDate` on strings) is engine-defined, so
every definition that can reach it is parameterised by a function
`dp : JsValue -> Option Int` (`none` plays the role of `NaN`); theorems
quantify over `dp`, so they hold for the real engine behaviour as well.
-/

namespace Camo

/-- A JavaScript runtime value, as far as the camo core inspects one.
`docInst` is a hydrated `Document` instance (carries the `IS_DOCUMENT`
marker), `embInst` an `EmbeddedDocument` instance (`IS_EMBEDDED` marker);
an `embInst` is identified by a tag, its recursive `validate()` behaviour
is passed in as a function where needed. -/
inductive JsValue where
  | undef : JsValue
  | null : JsValue
  | bool (b : Bool) : JsValue
  | num (n : Int) : JsValue
  | str (s : String) : JsValue
  | date (t : Int) : JsValue
  | arr (elems : List JsValue) : JsValue
  | obj (entries : List (String × JsValue)) : JsValue
  | docInst (cls : String) (id : JsValue) : JsValue
  | embInst (tag : Nat) : JsValue

namespace JsValue

def isNull : JsValue → Bool
  | .null => true
  | _ => false

def isUndef : JsValue → Bool
  | .undef => true
  | _ => false

def isArr : JsValue → Bool
  | .arr _ => true
  | _ => false

def isEmb : JsValue → Bool
  | .embInst _ => true
  | _ => false

def isDoc : JsValue → Bool
  | .docInst _ _ => true
  | _ => false

end JsValue

/-- JavaScript `typeof`. -/
def typeofStr : JsValue → String
  | .undef => "undefined"
  | .null => "object"
  | .bool _ => "boolean"
  | .num _ => "number"
  | .str _ => "string"
  | .date _ => "object"
  | .arr _ => "object"
  | .obj _ => "object"
  | .docInst _ _ => "object"
  | .embInst _ => "object"

/-- JavaScript truthiness. -/
def jsTruthy : JsValue → Bool
  | .undef => false
  | .null => false
  | .bool b => b
  | .num n => n != 0
  | .str s => s ≠ ""
  | _ => true

/-- `value instanceof Date`. -/
def instanceofDate : JsValue → Bool
  | .date _ => true
  | _ => false

/-- The `lodash _.isNumber(n) && _.isFinite(n)` test from `validate.js/isNumber`
(`Int` carries no `NaN`/`Infinity`, so finiteness is automatic here). -/
def isNumberVal : JsValue → Bool
  | .num _ => true
  | _ => false

/-- `lodash _.isObject` (objects, arrays, dates, instances; not primitives, not null). -/
def isObjectVal : JsValue → Bool
  | .date _ => true
  | .arr _ => true
  | .obj _ => true
  | .docInst _ _ => true
  | .embInst _ => true
  | _ => false

/-- `NeDbClient.isNativeId`: a 16-character string of `[0-9a-zA-Z]`
(`NON_ID_CHAR_REGEX = /[^0-9a-z]/i`). -/
def isNativeIdVal : JsValue → Bool
  | .str s => s.length == 16 && s.all Char.isAlphanum
  | _ => false

mutual

/-- String conversion used when a value is `+`-concatenated into an error
message.  Dates render as their timestamp here (the engine renders a locale
string; no theorem depends on the rendering of a date). -/
def jsDisplay : JsValue → String
  | .undef => "undefined"
  | .null => "null"
  | .bool b => if b then "true" else "false"
  | .num n => toString n
  | .str s => s
  | .date t => toString t
  | .arr l => String.intercalate "," (jsDisplayList l)
  | .obj _ => "[object Object]"
  | .docInst _ _ => "[object Object]"
  | .embInst _ => "[object Object]"

/-- `Array.prototype.toString` joins with `,`, rendering `null`/`undefined`
elements as empty. -/
def jsDisplayList : List JsValue → List String
  | [] => []
  | .undef :: rest => "" :: jsDisplayList rest
  | .null :: rest => "" :: jsDisplayList rest
  | v :: rest => jsDisplay v :: jsDisplayList rest

end

/-- `Object.keys(value)`: throws a `TypeError` on `null`/`undefined`,
returns index strings for strings and arrays, own enumerable keys for plain
objects, `[]` for other primitives.  Document/embedded instances always have
own properties (`_schema`, and `_id` for documents), set in their
constructors. -/
def jsObjectKeys : JsValue → Option (List String)
  | .undef => none
  | .null => none
  | .bool _ => some []
  | .num _ => some []
  | .date _ => some []
  | .str s => some ((List.range s.length).map toString)
  | .arr l => some ((List.range l.length).map toString)
  | .obj entries => some (entries.map Prod.fst)
  | .docInst _ _ => some ["_schema", "_id"]
  | .embInst _ => some ["_schema"]

/-- JavaScript `ToNumber` as used by the relational operators on the values
reachable in the bounds checks (`none` = `NaN`).  Arrays coerce through their
string form; plain objects and instances coerce to `"[object Object]"`,
hence `NaN`. -/
def jsToNumber : JsValue → Option Int
  | .undef => none
  | .null => some 0
  | .bool b => some (if b then 1 else 0)
  | .num n => some n
  | .date t => some t
  | .str s => jsStrToNumber s
  | .arr l => jsStrToNumber (jsDisplay (.arr l))
  | .obj _ => none
  | .docInst _ _ => none
  | .embInst _ => none
where
  /-- `Number(string)` restricted to optionally-signed integer literals;
  the empty (or all-blank) string converts to `0`. -/
  jsStrToNumber (s : String) : Option Int :=
    let t := s.trim
    if t = "" then some 0 else t.toInt?

/-- JavaScript `<`: lexicographic when both operands are strings, otherwise
numeric with `NaN` making the comparison false. -/
def jsLt (a b : JsValue) : Bool :=
  match a, b with
  | .str x, .str y => decide (x < y)
  | _, _ =>
    match jsToNumber a, jsToNumber b with
    | some x, some y => decide (x < y)
    | _, _ => false

/-- JavaScript `>`. -/
def jsGt (a b : JsValue) : Bool := jsLt b a

/-- A declared schema type, after `normalizeType`: the basic constructor
tokens, the `Array`/`Object` wildcards, a JS array literal of element types
(`[String]`, `[]`, ...), a `Document` subclass or an `EmbeddedDocument`
subclass (by class name).  The system id type (`nativeIdType()`) is `String`
for the NeDB client, i.e. `.string`. -/
inductive SchemaType where
  | string : SchemaType
  | number : SchemaType
  | boolean : SchemaType
  | buffer : SchemaType
  | date : SchemaType
  | arrayCtor : SchemaType
  | object : SchemaType
  | jsArray (elems : List SchemaType) : SchemaType
  | docClass (name : String) : SchemaType
  | embClass (name : String) : SchemaType

/-- `type.name` as used in type-error messages (`[T]` handled at the call
site, mirroring `BaseDocument.validate`). -/
def SchemaType.jsName : SchemaType → String
  | .string => "String"
  | .number => "Number"
  | .boolean => "Boolean"
  | .buffer => "Buffer"
  | .date => "Date"
  | .arrayCtor => "Array"
  | .object => "Object"
  | .jsArray _ => "Array"
  | .docClass n => n
  | .embClass n => n

/-- Which validation check an error came from (derivable from the distinct
message shapes thrown by `BaseDocument.validate`; carried explicitly for
convenient statements). -/
inductive CheckKind where
  | typeCheck | requiredCheck | matchCheck | choicesCheck
  | minCheck | maxCheck | customCheck
deriving DecidableEq

/-- An error surfaced by the core: a `ValidationError` (with its check kind
and message), a JS `TypeError` (e.g. `Object.keys(null)`), or a plain
`Error`. -/
inductive CamoError where
  | validation (kind : CheckKind) (msg : String) : CamoError
  | typeError (msg : String) : CamoError
  | genericError (msg : String) : CamoError
deriving DecidableEq

/-- `validate.js/isDate`: `isNumber(d) || _.isDate(d) || isNumber(Date.parse(d))`;
`dp` models the engine-defined `Date.parse` on arbitrary values. -/
def isDateVal (dp : JsValue → Option Int) (v : JsValue) : Bool :=
  isNumberVal v || instanceofDate v || (dp v).isSome

/-- `validate.js/isBuffer`: `typeof b === 'object' || b instanceof Buffer`. -/
def isBufferVal (v : JsValue) : Bool :=
  typeofStr v == "object"

/-- `validate.js/isType` (the per-branch test; the caller guarantees the
value is not `null`/`undefined` except for array elements).  With the closed
`SchemaType` every branch is covered, so the trailing `Unsupported type`
throw is unreachable. -/
def isType (dp : JsValue → Option Int) (v : JsValue) : SchemaType → Bool
  | .string => typeofStr v == "string"
  | .number => isNumberVal v
  | .boolean => typeofStr v == "boolean"
  | .buffer => isBufferVal v
  | .date => isDateVal dp v
  | .arrayCtor => v.isArr
  | .jsArray _ => v.isArr
  | .object => isObjectVal v
  | .docClass _ => v.isDoc || isNativeIdVal v
  | .embClass _ => v.isEmb

/-- Message of the error thrown by `isValidType` for a multi-element array
type declaration. -/
def arrMultiTypeMsg : String :=
  "Unsupported type. Only one type can be specified in arrays, but multiple found"

/-- `validate.js/isValidType`: `null` and `undefined` are valid for every
type; array-typed declarations check elementwise for `[T]` against an array
value, reject a non-array only for `[]` and `Array`, and (faithfully to the
source fall-through) accept a non-array value against `[T]`. -/
def isValidType (dp : JsValue → Option Int) (v : JsValue) (t : SchemaType) :
    Except CamoError Bool :=
  if v.isNull then .ok true
  else if v.isUndef then .ok true
  else
    match t with
    | .jsArray ts =>
      if ts.length > 1 then .error (.genericError arrMultiTypeMsg)
      else
        match ts, v with
        | [t0], .arr l => .ok (l.all (fun e => isType dp e t0))
        | [], w => .ok w.isArr
        | _, _ => .ok true
    | .arrayCtor => .ok v.isArr
    | _ => .ok (isType dp v t)

/-- `validate.js/isEmptyValue`; `Object.keys` on `null` raises a `TypeError`
(`undefined` is caught by the first disjunct before reaching it). -/
def isEmptyValue (v : JsValue) : Except CamoError Bool :=
  if v.isUndef then .ok true
  else if typeofStr v == "number" || instanceofDate v || typeofStr v == "boolean" then
    .ok false
  else
    match jsObjectKeys v with
    | none => .error (.typeError "Cannot convert undefined or null to object")
    | some ks => .ok ks.isEmpty

/-- JavaScript `===`, as used by `choices.indexOf`: value equality on
primitives, reference equality on objects (distinct literals are distinct
references, hence unequal here). -/
def jsStrictEq : JsValue → JsValue → Bool
  | .undef, .undef => true
  | .null, .null => true
  | .bool a, .bool b => a == b
  | .num a, .num b => a == b
  | .str a, .str b => a == b
  | _, _ => false

/-- `validate.js/isInChoices`: absent `choices` always passes; otherwise
`~choices.indexOf(choice)`. -/
def isInChoices (choices : Option (List JsValue)) (choice : JsValue) : Bool :=
  match choices with
  | none => true
  | some cs => cs.any (fun c => jsStrictEq c choice)

/-- A schema `match` regex: its `toString()` rendering and its `test`
behaviour. -/
structure JsRegex where
  src : String
  test : String → Bool

/-- A schema entry `default`: absent, a plain value (returned as-is by
`getDefault`, i.e. by reference), or a factory function (invoked per call). -/
inductive DefaultDecl where
  | noDflt : DefaultDecl
  | val (v : JsValue) : DefaultDecl
  | factory (f : Unit → JsValue) : DefaultDecl

/-- One compiled schema entry of `this._schema[key]` as consumed by
`BaseDocument.validate` (the old-style `normalizeType` keeps the declared
option values as-is; `matchRe` stands for the source property `match`,
`validateFn` for `validate`, both renamed around Lean keywords/clashes). -/
structure SchemaEntry where
  type : SchemaType
  required : Bool := false
  matchRe : Option JsRegex := none
  choices : Option (List JsValue) := none
  min : Option JsValue := none
  max : Option JsValue := none
  validateFn : Option (JsValue → Bool) := none
  dflt : DefaultDecl := .noDflt

/-- Type-name rendering of `BaseDocument.validate` lines 200-206:
`[T]` for a one-element array type, `[]` for an empty one, else `type.name`. -/
def typeNameStr : SchemaType → String
  | .jsArray (t0 :: _) => "[" ++ t0.jsName ++ "]"
  | .jsArray [] => "[]"
  | t => t.jsName

/-- Value rendering of `BaseDocument.validate` lines 208-217: arrays as
`[toString]`, otherwise `typeof value`. -/
def valueNameStr : JsValue → String
  | .arr l => "[" ++ jsDisplay (.arr l) ++ "]"
  | v => typeofStr v

def typeErrMsg (coll key : String) (t : SchemaType) (v : JsValue) : String :=
  "Value assigned to " ++ coll ++ "." ++ key ++ " should be " ++ typeNameStr t ++
    ", got " ++ valueNameStr v

def requiredErrMsg (coll key : String) (v : JsValue) : String :=
  "Key " ++ coll ++ "." ++ key ++ " is required" ++ ", but got " ++ jsDisplay v

def matchErrMsg (coll key : String) (re : JsRegex) (v : JsValue) : String :=
  "Value assigned to " ++ coll ++ "." ++ key ++ " does not match the regex/string " ++
    re.src ++ ". Value was " ++ jsDisplay v

def choicesErrMsg (coll key : String) (cs : List JsValue) (v : JsValue) : String :=
  "Value assigned to " ++ coll ++ "." ++ key ++ " should be in choices [" ++
    String.intercalate ", " (cs.map jsDisplay) ++ "], got " ++ jsDisplay v

def minErrMsg (coll key : String) (m : JsValue) (v : JsValue) : String :=
  "Value assigned to " ++ coll ++ "." ++ key ++ " is less than min, " ++
    jsDisplay m ++ ", got " ++ jsDisplay v

/-- The source reuses the `less than` wording for the max bound. -/
def maxErrMsg (coll key : String) (m : JsValue) (v : JsValue) : String :=
  "Value assigned to " ++ coll ++ "." ++ key ++ " is less than max, " ++
    jsDisplay m ++ ", got " ++ jsDisplay v

def customErrMsg (coll key : String) (v : JsValue) : String :=
  "Value assigned to " ++ coll ++ "." ++ key ++ " failed custom validator. Value was " ++
    jsDisplay v

/-- Condition of the `match` check:
`schema.match && typeof value === 'string' && !match.test(value)`. -/
def matchViolated (en : SchemaEntry) (v : JsValue) : Bool :=
  match en.matchRe, v with
  | some re, .str s => !re.test s
  | _, _ => false

/-- Condition of the min bound check: `isNumber(schema.min) && value < schema.min`
(in particular a `Date`-valued `min` fails `isNumber` and is skipped). -/
def minViolated (en : SchemaEntry) (v : JsValue) : Bool :=
  match en.min with
  | some m => isNumberVal m && jsLt v m
  | none => false

/-- Condition of the max bound check: `isNumber(schema.max) && value > schema.max`. -/
def maxViolated (en : SchemaEntry) (v : JsValue) : Bool :=
  match en.max with
  | some m => isNumberVal m && jsGt v m
  | none => false

/-- Condition of the user-validator check:
`typeof schema.validate === 'function' && !schema.validate(value)`. -/
def customViolated (en : SchemaEntry) (v : JsValue) : Bool :=
  match en.validateFn with
  | some f => !f v
  | none => false

/-- The six primitive checks of `BaseDocument.validate` for one field, in
source order, each throwing the corresponding `ValidationError` (the
required check evaluates `isEmptyValue` only when `required` is set, and
that evaluation itself throws a `TypeError` on a `null` value). -/
def validateFieldChecks (dp : JsValue → Option Int) (coll key : String)
    (en : SchemaEntry) (v : JsValue) : Except CamoError Unit :=
  match isValidType dp v en.type with
  | .error e => .error e
  | .ok tyOk =>
    if !tyOk then .error (.validation .typeCheck (typeErrMsg coll key en.type v))
    else
      match (if en.required then isEmptyValue v else .ok false) with
      | .error e => .error e
      | .ok empty =>
        if empty then .error (.validation .requiredCheck (requiredErrMsg coll key v))
        else if matchViolated en v then
          .error (.validation .matchCheck
            (matchErrMsg coll key (en.matchRe.getD ⟨"", fun _ => true⟩) v))
        else if !isInChoices en.choices v then
          .error (.validation .choicesCheck (choicesErrMsg coll key (en.choices.getD []) v))
        else if minViolated en v then
          .error (.validation .minCheck (minErrMsg coll key (en.min.getD .undef) v))
        else if maxViolated en v then
          .error (.validation .maxCheck (maxErrMsg coll key (en.max.getD .undef) v))
        else if customViolated en v then
          .error (.validation .customCheck (customErrMsg coll key v))
        else .ok ()

/-- `value.forEach(v => v && v.validate())` for an array whose first element
is an embedded document: falsy elements are skipped, truthy non-embedded
elements have no `validate` method (a `TypeError` in JS).  `embV` gives each
embedded instance's recursive `validate()` outcome. -/
def validateEmbArray (embV : Nat → Except CamoError Unit) (elems : List JsValue) :
    Except CamoError Unit :=
  elems.forM fun e =>
    if jsTruthy e then
      match e with
      | .embInst tag => embV tag
      | _ => .error (.typeError "v.validate is not a function")
    else .ok ()

/-- One field of `BaseDocument.validate`: the embedded-document shortcuts
(lines 185-194) return early, everything else runs the six checks. -/
def validateField (dp : JsValue → Option Int) (embV : Nat → Except CamoError Unit)
    (coll key : String) (en : SchemaEntry) (v : JsValue) : Except CamoError Unit :=
  match v with
  | .embInst tag => embV tag
  | .arr (e0 :: rest) =>
    if e0.isEmb then validateEmbArray embV (e0 :: rest)
    else validateFieldChecks dp coll key en (.arr (e0 :: rest))
  | w => validateFieldChecks dp coll key en w

/-- A document as seen by `validate`: its collection name and its schema
keys in declaration order, each with its compiled entry and current value
(`_.keys(this._schema)` iterates in insertion order). -/
structure DocModel where
  collName : String
  fields : List (String × SchemaEntry × JsValue)

/-- `BaseDocument.validate`: fields in schema declaration order, the thrown
error of the first failing check aborts the whole traversal. -/
def validateDoc (dp : JsValue → Option Int) (embV : Nat → Except CamoError Unit)
    (d : DocModel) : Except CamoError Unit :=
  d.fields.forM fun f => validateField dp embV d.collName f.1 f.2.1 f.2.2

/-- The checks of one field in their fixed source order. -/
def CHECK_ORDER : List CheckKind :=
  [.typeCheck, .requiredCheck, .matchCheck, .choicesCheck, .minCheck, .maxCheck, .customCheck]

/-- Whether a given check, looked at in isolation, rejects the value. -/
def checkFails (dp : JsValue → Option Int) (en : SchemaEntry) (v : JsValue) :
    CheckKind → Bool
  | .typeCheck =>
    match isValidType dp v en.type with
    | .ok false => true
    | _ => false
  | .requiredCheck =>
    en.required &&
      match isEmptyValue v with
      | .ok true => true
      | _ => false
  | .matchCheck => matchViolated en v
  | .choicesCheck => !isInChoices en.choices v
  | .minCheck => minViolated en v
  | .maxCheck => maxViolated en v
  | .customCheck => customViolated en v

/-- The first failing check of a field, in the fixed order. -/
def firstFailingCheck (dp : JsValue → Option Int) (en : SchemaEntry) (v : JsValue) :
    Option CheckKind :=
  CHECK_ORDER.find? (checkFails dp en v)

/-- The `ValidationError` raised by a given check. -/
def checkError (kind : CheckKind) (coll key : String) (en : SchemaEntry) (v : JsValue) :
    CamoError :=
  match kind with
  | .typeCheck => .validation .typeCheck (typeErrMsg coll key en.type v)
  | .requiredCheck => .validation .requiredCheck (requiredErrMsg coll key v)
  | .matchCheck =>
    .validation .matchCheck (matchErrMsg coll key (en.matchRe.getD ⟨"", fun _ => true⟩) v)
  | .choicesCheck => .validation .choicesCheck (choicesErrMsg coll key (en.choices.getD []) v)
  | .minCheck => .validation .minCheck (minErrMsg coll key (en.min.getD .undef) v)
  | .maxCheck => .validation .maxCheck (maxErrMsg coll key (en.max.getD .undef) v)
  | .customCheck => .validation .customCheck (customErrMsg coll key v)

/-! ## Instantiation and `_fromData` (base-document.js lines 281-355) -/

/-- Assoc lookup for a compiled schema (`key in instance._schema`). -/
def lookupEntry (schema : List (String × SchemaEntry)) (key : String) :
    Option SchemaEntry :=
  schema.lookup key

/-- `BaseDocument.getDefault` (value level): `_id` yields `null`; a key with
a `default` yields the default (factories invoked, anything else returned
as-is); otherwise `undefined`. -/
def getDefault (schema : List (String × SchemaEntry)) (prop : String) : JsValue :=
  if prop = "_id" then .null
  else
    match lookupEntry schema prop with
    | none => .undef
    | some en =>
      match en.dflt with
      | .noDflt => .undef
      | .val v => v
      | .factory f => f ()

/-- The instance fields produced by `_instantiate` / `generateSchema`: every
schema key in declaration order; `_id` is `null`, an array-typed key gets
`getDefault(key) || []`, any other key gets `getDefault(key)`. -/
def instantiateFields (schema : List (String × SchemaEntry)) :
    List (String × JsValue) :=
  schema.map fun f =>
    if f.1 = "_id" then (f.1, JsValue.null)
    else
      match f.2.type with
      | .jsArray _ =>
        let d := getDefault schema f.1
        (f.1, if jsTruthy d then d else .arr [])
      | _ => (f.1, getDefault schema f.1)

/-- JS property assignment on the modelled instance: overwrite an existing
own property, otherwise add one. -/
def setField (fields : List (String × JsValue)) (k : String) (v : JsValue) :
    List (String × JsValue) :=
  if fields.any (fun f => f.1 = k) then
    fields.map (fun f => if f.1 = k then (k, v) else f)
  else fields ++ [(k, v)]

/-- `BaseDocument._fromData` for a single raw-data object.  `embFD` is the
recursive `_fromData` of an embedded class (by class name).  For every data
key: a `null` data value is replaced by the default; keys in the schema are
assigned (embedded single/array values through the embedded class), keys
that are properties of the instance but not of the schema hit virtual
setters, and all remaining keys are silently ignored (`If its not in the
schema, we don't care about it`). -/
def fromDataInstance (embFD : String → JsValue → JsValue)
    (schema : List (String × SchemaEntry)) (instProps : List String)
    (data : List (String × JsValue)) : Except CamoError (List (String × JsValue)) :=
  data.foldlM
    (fun fields kv => do
      let key := kv.1
      let value := if kv.2.isNull then getDefault schema key else kv.2
      match lookupEntry schema key with
      | some en =>
        match en.type with
        | .embClass n => pure (setField fields key (embFD n value))
        | .jsArray (SchemaType.embClass n :: _) =>
          match value with
          | .arr l => pure (setField fields key (.arr (l.map (embFD n))))
          | _ => Except.error (.typeError "value.map is not a function")
        | _ => pure (setField fields key value)
      | none =>
        if key ∈ instProps then pure (setField fields key value)
        else pure fields)
    (instantiateFields schema)

/-- `BaseDocument.create` for a single raw-data object (`createIndexes` is a
no-op at this level): with data it runs `_fromData`, without it just
`_instantiate`. -/
def createModel (embFD : String → JsValue → JsValue)
    (schema : List (String × SchemaEntry)) (instProps : List String)
    (data : Option (List (String × JsValue))) :
    Except CamoError (List (String × JsValue)) :=
  match data with
  | none => .ok (instantiateFields schema)
  | some d => fromDataInstance embFD schema instProps d

/-! ## Default-value sharing (base-document.js `getDefault`, lines 473-486),
with object identity made explicit: array values live in a store of
allocated arrays and fields hold addresses. -/

/-- A store of allocated JS arrays (the address is the list index). -/
structure ArrStore where
  arrays : List (List Int)

/-- Allocate a fresh array object. -/
def ArrStore.alloc (h : ArrStore) (contents : List Int) : Nat × ArrStore :=
  (h.arrays.length, ⟨h.arrays ++ [contents]⟩)

/-- Read the array at an address. -/
def ArrStore.read (h : ArrStore) (a : Nat) : List Int :=
  h.arrays.getD a []

/-- `array.push(x)` through a reference. -/
def ArrStore.push (h : ArrStore) (a : Nat) (x : Int) : ArrStore :=
  ⟨h.arrays.mapIdx (fun i l => if i = a then l ++ [x] else l)⟩

/-- An array-valued schema `default` with identity: absent, a literal array
object (allocated once, when the schema declaration object was built), or a
factory allocating a fresh array per call. -/
inductive HeapDefault where
  | noDefault : HeapDefault
  | literal (a : Nat) : HeapDefault
  | factory (contents : List Int) : HeapDefault

/-- `getDefault` at the identity level:
`typeof def === 'function' ? def() : def` — a factory allocates, a
non-function default is returned by reference. -/
def getDefaultH (d : HeapDefault) (h : ArrStore) : Option Nat × ArrStore :=
  match d with
  | .noDefault => (none, h)
  | .literal a => (some a, h)
  | .factory contents => let (a, h2) := h.alloc contents; (some a, h2)

/-- `generateSchema` for an array-typed key:
`this[key] = this.getDefault(key) || []` (an array default is truthy, an
absent default yields a fresh `[]`). -/
def instantiateArrayField (d : HeapDefault) (h : ArrStore) : Nat × ArrStore :=
  match getDefaultH d h with
  | (some a, h2) => (a, h2)
  | (none, h2) => h2.alloc []

/-! ## Reference population (base-document.js `BaseDocument.populate`,
lines 369-465).

Documents of the populated collection are modelled positionally (a document
is identified by its index in the list, mirroring the JS object references);
a reference field holds ids, hydrated records, or an array of either. -/

/-- A record fetched from storage for a target class (its own contents do
not matter for population, only its class and id). -/
structure Rec where
  cls : String
  rid : String
deriving DecidableEq

/-- A value of a reference field of a document being populated. -/
inductive FieldVal where
  | vid (s : String) : FieldVal
  | vdoc (r : Rec) : FieldVal
  | varr (elems : List FieldVal) : FieldVal
  | vnull : FieldVal
  | vundef : FieldVal

/-- A document under population: its reference fields. -/
structure PDoc where
  fields : List (String × FieldVal)

/-- Reading `doc[key]` (an absent property is `undefined`). -/
def PDoc.getField (d : PDoc) (key : String) : FieldVal :=
  match d.fields.lookup key with
  | none => .vundef
  | some v => v

/-- Assignment `doc[key] = v`. -/
def PDoc.setField (d : PDoc) (key : String) (v : FieldVal) : PDoc :=
  ⟨if d.fields.any (fun f => f.1 = key) then
      d.fields.map (fun f => if f.1 = key then (key, v) else f)
    else d.fields ++ [(key, v)]⟩

/-- String coercion of a referenced id used as a key of the plain-object
map `id2popTarget` (a native id is a 16-character alphanumeric string, so it
is never an array-index-like key and insertion order is preserved). -/
def elemKey : FieldVal → String
  | .vid s => s
  | .vdoc _ => "[object Object]"
  | .varr _ => ""
  | .vnull => "null"
  | .vundef => "undefined"

/-- A `CamoPopulateTarget`: the flattened `[doc, prop, doc, prop, ...]`
pair lists, kept as `(document index, property)` pairs. -/
structure PopTarget where
  ref1Slots : List (Nat × String)
  refNSlots : List (Nat × String)

/-- The per-class map `id2popTarget` (a plain object: ordered assoc list). -/
abbrev IdMap := List (String × PopTarget)

/-- The `docClassToIdPopTargetMap` (a `Map`: ordered assoc list keyed by the
target document class). -/
abbrev ClassMap := List (String × IdMap)

/-- `id2popTarget[id].refNDocsAndProps.push(doc, key)`, creating the target
(`{refNDocsAndProps: [doc, key], ref1DocsAndProps: []}`) if absent. -/
def addRefNSlot (m : IdMap) (id : String) (slot : Nat × String) : IdMap :=
  if (m.lookup id).isSome then
    m.map (fun e => if e.1 = id then (e.1, ⟨e.2.ref1Slots, e.2.refNSlots ++ [slot]⟩) else e)
  else m ++ [(id, ⟨[], [slot]⟩)]

/-- `id2popTarget[id].ref1DocsAndProps.push(doc, key)`, creating the target
if absent. -/
def addRef1Slot (m : IdMap) (id : String) (slot : Nat × String) : IdMap :=
  if (m.lookup id).isSome then
    m.map (fun e => if e.1 = id then (e.1, ⟨e.2.ref1Slots ++ [slot], e.2.refNSlots⟩) else e)
  else m ++ [(id, ⟨[slot], []⟩)]

/-- `docClassToIdPopTargetMap.get(cls)` with get-or-create
(`map.set(cls, id2popTarget = Object.create(null))`), then mutate the class
entry with `f`. -/
def updateClass (cm : ClassMap) (cls : String) (f : IdMap → IdMap) : ClassMap :=
  if (cm.lookup cls).isSome then
    cm.map (fun e => if e.1 = cls then (e.1, f e.2) else e)
  else cm ++ [(cls, f [])]

/-- The `for (const doc of documents)` loop of the multi-reference branch
for one key `key` targeting class `cls` (lines 392-414): a document whose
`key` value is a non-empty array registers one refN slot per element (in
element order) and has the array flushed to `[]`; other documents are left
alone.  `i` is the index of the first document of `ds`. -/
def popRefNDocs (key cls : String) : List PDoc → Nat → ClassMap → List PDoc × ClassMap
  | [], _, m => ([], m)
  | d :: rest, i, m =>
    match d.getField key with
    | .varr elems =>
      if elems.isEmpty then
        let (rest2, m2) := popRefNDocs key cls rest (i + 1) m
        (d :: rest2, m2)
      else
        let m1 := updateClass m cls
          (fun im => elems.foldl (fun im e => addRefNSlot im (elemKey e) (i, key)) im)
        let (rest2, m2) := popRefNDocs key cls rest (i + 1) m1
        (d.setField key (.varr []) :: rest2, m2)
    | _ =>
      let (rest2, m2) := popRefNDocs key cls rest (i + 1) m
      (d :: rest2, m2)

/-- The `for (const doc of documents)` loop of the single-reference branch
for one key (lines 422-440): a truthy native-id value registers one ref1
slot; hydrated instances, `null`/`undefined` and arrays are skipped
(`referencedId && isNativeId(referencedId)`). -/
def popRef1Docs (key cls : String) : List PDoc → Nat → ClassMap → ClassMap
  | [], _, m => m
  | d :: rest, i, m =>
    match d.getField key with
    | .vid s => popRef1Docs key cls rest (i + 1) (updateClass m cls (fun im => addRef1Slot im s (i, key)))
    | _ => popRef1Docs key cls rest (i + 1) m

/-- `useFields && fields.indexOf(key) < 0`: a key is skipped only when the
filter is a non-empty array not containing it. -/
def skipKey (fields : Option (List String)) (key : String) : Bool :=
  match fields with
  | some fs => !fs.isEmpty && !fs.contains key
  | none => false

/-- Phases 1+2 of `populate`: collect the per-class id maps over the
refN keys (in `REF_N_KEYS` order) and then the ref1 keys, flushing refN
arrays.  Each key is paired with the target class of its schema type. -/
def buildPopMap (refNKeys ref1Keys : List (String × String))
    (fields : Option (List String)) (docs : List PDoc) : List PDoc × ClassMap :=
  let st1 := refNKeys.foldl
    (fun (st : List PDoc × ClassMap) kc =>
      if skipKey fields kc.1 then st else popRefNDocs kc.1 kc.2 st.1 0 st.2)
    (docs, [])
  (st1.1,
   ref1Keys.foldl
     (fun (m : ClassMap) kc =>
       if skipKey fields kc.1 then m else popRef1Docs kc.1 kc.2 st1.1 0 m)
     st1.2)

/-- One `find` call issued by `populate`:
`docClass.find({_id: {$in: Object.keys(id2popTarget)}}, {populate: false})`. -/
structure Query where
  cls : String
  ids : List String
  populateFlag : Bool
deriving DecidableEq

/-- The queries issued in phase 3, one per entry of the class map. -/
def queriesOf (cm : ClassMap) : List Query :=
  cm.map (fun e => ⟨e.1, e.2.map Prod.fst, false⟩)

/-- Replace document `i` in the collection (the JS mutates the object the
slot points to; documents are identified positionally here). -/
def updateDocAt (ds : List PDoc) (i : Nat) (f : PDoc → PDoc) : List PDoc :=
  match ds[i]? with
  | some d => ds.set i (f d)
  | none => ds

/-- Back-fill one fetched record (lines 447-459): assign every ref1 slot,
push onto every refN slot, in slot-registration order.  A record whose id
is not in the map, or a push onto a non-array, cannot occur when storage
only returns queried ids (the JS would throw on the former). -/
def backfillRecord (im : IdMap) (ds : List PDoc) (r : Rec) : List PDoc :=
  match im.lookup r.rid with
  | none => ds
  | some t =>
    let ds1 := t.ref1Slots.foldl
      (fun ds slot => updateDocAt ds slot.1 (fun d => d.setField slot.2 (.vdoc r))) ds
    t.refNSlots.foldl
      (fun ds slot => updateDocAt ds slot.1 (fun d =>
        match d.getField slot.2 with
        | .varr l => d.setField slot.2 (.varr (l ++ [.vdoc r]))
        | _ => d))
      ds1

/-- Back-fill all records fetched for one class, in fetch order. -/
def backfillClass (im : IdMap) (found : List Rec) (ds : List PDoc) : List PDoc :=
  found.foldl (backfillRecord im) ds

/-- `BaseDocument.populate` for a non-empty homogeneous collection:
phases 1+2 build the per-class maps (flushing refN arrays), phase 3 issues
one `find` per class (the returned `Query` list) and back-fills each class's
fetch results.  `storageFind cls ids` models what the storage returns for
the `$in` query.  Back-fills of different classes touch disjoint
`(document, key)` slots (a key has a single target class), so folding the
classes sequentially is equivalent to the concurrent `Promise.all`. -/
def populateModel (refNKeys ref1Keys : List (String × String))
    (fields : Option (List String)) (storageFind : String → List String → List Rec)
    (docs : List PDoc) : List PDoc × List Query :=
  let (ds, cm) := buildPopMap refNKeys ref1Keys fields docs
  (cm.foldl (fun ds e => backfillClass e.2 (storageFind e.1 (e.2.map Prod.fst)) ds) ds,
   queriesOf cm)

/-! ## Lifecycle sequencing and error propagation (document.js `save`,
`delete`, `find*`; nedbclient.js `delete`).

Promise chains are modelled in `Except` (a rejected promise is `.error`);
hook invocations and the storage/validate/canonicalize steps leave events in
a trace, in invocation order. -/

inductive HookPhase where
  | preValidate | postValidate | preSave | postSave | preDelete | postDelete
deriving DecidableEq

/-- Who a hook ran on: the owning document or one of its embedded children
(as enumerated by `_getEmbeddeds`). -/
inductive Actor where
  | parentDoc : Actor
  | child (i : Nat) : Actor
deriving DecidableEq

inductive LcEvent where
  | hook (ph : HookPhase) (who : Actor)
  | validateCall
  | canonicalizeCall
  | persistCall
  | storageDeleteCall
deriving DecidableEq

/-- `Promise.all` over an array of already-started operations: it settles
`ok` when all do, otherwise with the first rejection in array order. -/
def seqE {E : Type} : List (Except E Unit) → Except E Unit
  | [] => .ok ()
  | .error e :: _ => .error e
  | .ok () :: rs => seqE rs

/-- The actors of `_getHookPromises`: every embedded child (in
`_getEmbeddeds` order), then the document itself. -/
def hookActors (children : List Nat) : List Actor :=
  children.map Actor.child ++ [Actor.parentDoc]

/-- The hook-invocation events of one phase. -/
def hookEvs (ph : HookPhase) (children : List Nat) : List LcEvent :=
  (hookActors children).map (fun a => LcEvent.hook ph a)

/-- `Promise.all(this._getHookPromises(name))`: `_.invokeMap` invokes the
hook on every embedded child and then on the document itself; all of them
are invoked (events emitted) before `Promise.all` settles. -/
def runHookPhase {E : Type} (hookResult : HookPhase → Actor → Except E Unit)
    (children : List Nat) (ph : HookPhase) (tr : List LcEvent) :
    List LcEvent × Except E Unit :=
  (tr ++ hookEvs ph children, seqE ((hookActors children).map (hookResult ph)))

/-- The outcomes of the externally-supplied steps of one `save()` call. -/
structure SaveEnv (E : Type) where
  hookResult : HookPhase → Actor → Except E Unit
  validateResult : Except E Unit
  canonicalizeResult : Except E Unit
  storageSaveResult : Except E String

/-- `Document.save` (lines 26-115): preValidate hooks, `validate()`,
`canonicalize()`, postValidate hooks, preSave hooks, `DB().save` (the
payload construction has no observable effect here), id adoption, postSave
hooks; the trailing `.catch(error => Promise.reject(error))` re-rejects
unchanged.  Returns the trace of events and the settled outcome. -/
def saveModel {E : Type} (env : SaveEnv E) (children : List Nat) :
    List LcEvent × Except E Unit :=
  match runHookPhase env.hookResult children .preValidate [] with
  | (tr, .error e) => (tr, .error e)
  | (tr, .ok ()) =>
    let tr := tr ++ [LcEvent.validateCall]
    match env.validateResult with
    | .error e => (tr, .error e)
    | .ok () =>
      let tr := tr ++ [LcEvent.canonicalizeCall]
      match env.canonicalizeResult with
      | .error e => (tr, .error e)
      | .ok () =>
        match runHookPhase env.hookResult children .postValidate tr with
        | (tr, .error e) => (tr, .error e)
        | (tr, .ok ()) =>
          match runHookPhase env.hookResult children .preSave tr with
          | (tr, .error e) => (tr, .error e)
          | (tr, .ok ()) =>
            let tr := tr ++ [LcEvent.persistCall]
            match env.storageSaveResult with
            | .error e => (tr, .error e)
            | .ok _ =>
              match runHookPhase env.hookResult children .postSave tr with
              | (tr, .error e) => (tr, .error e)
              | (tr, .ok ()) => (tr, .ok ())

/-- Hook events with asynchrony kept: the synchronous invocation of a hook
(the call that starts it and obtains its promise) is a different event from
the later settlement of that promise. -/
inductive AsyncEv where
  | hookInvoked (ph : HookPhase) (who : Actor)
  | hookSettled (ph : HookPhase) (who : Actor)
  | validateCall
  | canonicalizeCall
  | persistCall
deriving DecidableEq

/-- `Promise.all(this._getHookPromises(name))` with hook asynchrony kept:
`_getHookPromises` (base-document.js lines 567-574) invokes the hook on
every embedded child and then on the document itself, synchronously and
without awaiting any of them; the promises obtained settle later, in
whatever order `sched` the scheduler delivers, and `Promise.all` waits for
all of them, rejecting with the first rejection in settlement order. -/
def runHookPhaseAsync {E : Type} (hookResult : HookPhase → Actor → Except E Unit)
    (children : List Nat) (ph : HookPhase) (sched : List Actor)
    (tr : List AsyncEv) : List AsyncEv × Except E Unit :=
  (tr ++ (hookActors children).map (AsyncEv.hookInvoked ph)
      ++ sched.map (AsyncEv.hookSettled ph),
   seqE (sched.map (hookResult ph)))

/-- `Document.save` (lines 26-115) with hook asynchrony kept: every hook
phase first invokes all hooks (children in `_getEmbeddeds` order, then the
parent) and then waits for all of their settlements before the next step of
the chain runs; `sched` gives the settlement order of each phase. -/
def saveModelAsync {E : Type} (env : SaveEnv E) (children : List Nat)
    (sched : HookPhase → List Actor) : List AsyncEv × Except E Unit :=
  match runHookPhaseAsync env.hookResult children .preValidate (sched .preValidate) [] with
  | (tr, .error e) => (tr, .error e)
  | (tr, .ok ()) =>
    let tr := tr ++ [AsyncEv.validateCall]
    match env.validateResult with
    | .error e => (tr, .error e)
    | .ok () =>
      let tr := tr ++ [AsyncEv.canonicalizeCall]
      match env.canonicalizeResult with
      | .error e => (tr, .error e)
      | .ok () =>
        match runHookPhaseAsync env.hookResult children .postValidate
            (sched .postValidate) tr with
        | (tr, .error e) => (tr, .error e)
        | (tr, .ok ()) =>
          match runHookPhaseAsync env.hookResult children .preSave
              (sched .preSave) tr with
          | (tr, .error e) => (tr, .error e)
          | (tr, .ok ()) =>
            let tr := tr ++ [AsyncEv.persistCall]
            match env.storageSaveResult with
            | .error e => (tr, .error e)
            | .ok _ =>
              match runHookPhaseAsync env.hookResult children .postSave
                  (sched .postSave) tr with
              | (tr, .error e) => (tr, .error e)
              | (tr, .ok ()) => (tr, .ok ())

/-- Outcome of `NeDbClient.delete` (lines 110-118) on a collection holding
the given ids, success path (the `db.remove` callback's failure channel is
modelled by `nedbClientDeleteE` below): a `null`/`undefined` id resolves
`0` without touching the datastore; otherwise `db.remove({_id: id})`
removes the matching records. -/
structure NedbDeleteOut where
  count : Nat
  store : List String
  touchedDb : Bool

def nedbClientDelete (store : List String) (id : Option String) : NedbDeleteOut :=
  match id with
  | none => ⟨0, store, false⟩
  | some s => ⟨store.count s, store.filter (fun x => x ≠ s), true⟩

/-- `Document.delete` (lines 122-137) over the NeDB client: preDelete hooks,
`DB().delete(collection, this._id)`, then
`Promise.all([deleteReturn].concat(postDelete hooks))` and the saved
`deleteReturn` is resolved.  `docId` is `this._id` (`none` = `null`). -/
def documentDeleteNedb {E : Type} (hookResult : HookPhase → Actor → Except E Unit)
    (children : List Nat) (store : List String) (docId : Option String) :
    List LcEvent × List String × Except E Nat :=
  match runHookPhase hookResult children .preDelete [] with
  | (tr, .error e) => (tr, store, .error e)
  | (tr, .ok ()) =>
    let out := nedbClientDelete store docId
    let tr := tr ++ (if out.touchedDb then [LcEvent.storageDeleteCall] else [])
    match runHookPhase hookResult children .postDelete tr with
    | (tr2, .error e) => (tr2, out.store, .error e)
    | (tr2, .ok ()) => (tr2, out.store, .ok out.count)

/-- Settled value of `NeDbClient.delete` with the `db.remove` callback's
failure channel kept (nedbclient.js line 116:
`error ? reject(error) : resolve(numRemoved)`): a `null`/`undefined` id
resolves `0` without running `db.remove`; otherwise the callback's error
rejects the promise and its count resolves it.  `removeResult` is what the
datastore hands the callback. -/
def nedbClientDeleteE {E : Type} (removeResult : Except E Nat)
    (id : Option String) : Except E Nat :=
  match id with
  | none => .ok 0
  | some _ => removeResult

/-- `Document.delete` (lines 122-137) over the failure-aware NeDB delete:
`Promise.all(preDelete hooks)`, then `DB().delete`, then
`Promise.all(postDelete hooks)` resolving the saved count; each step's
rejection propagates unrecovered. -/
def documentDeleteE {E : Type} (hookResult : HookPhase → Actor → Except E Unit)
    (children : List Nat) (removeResult : Except E Nat) (docId : Option String) :
    Except E Nat :=
  match seqE ((hookActors children).map (hookResult .preDelete)) with
  | .error e => .error e
  | .ok () =>
    match nedbClientDeleteE removeResult docId with
    | .error e => .error e
    | .ok n =>
      match seqE ((hookActors children).map (hookResult .postDelete)) with
      | .error e => .error e
      | .ok () => .ok n

/-- The `populate` option of the `find*` statics (`true`, `false`, or a
field list). -/
inductive PopulateOpt where
  | tru : PopulateOpt
  | fls : PopulateOpt
  | list (fs : List String) : PopulateOpt

/-- `populate === true || (isArray(populate) && populate.length)`. -/
def popOptActive : PopulateOpt → Bool
  | .tru => true
  | .fls => false
  | .list fs => !fs.isEmpty

/-- `if (populate)`: JS truthiness — note an empty array is truthy. -/
def popOptTruthy : PopulateOpt → Bool
  | .tru => true
  | .fls => false
  | .list _ => true

/-- Result shape of `findOne`-style statics: a document, `null`, or
`undefined` (the latter only via the swallowing `catch`). -/
inductive FindOneOut (δ : Type) where
  | found (d : δ) : FindOneOut δ
  | nullRes : FindOneOut δ
  | undefRes : FindOneOut δ
deriving DecidableEq

/-- `Document.findOne` (lines 179-197): `DB().findOne` → hydrate → populate
if requested → `.then(doc => doc || null)` → and finally
`.catch(err => console.error(err))`, which swallows every rejection and
resolves with `undefined` (the return value of `console.error`). -/
def findOneModel {E γ δ : Type} (storageRes : Except E (Option γ))
    (fromData : γ → δ) (populateRes : δ → Except E δ) (popOpt : PopulateOpt) :
    Except E (FindOneOut δ) :=
  let chained : Except E (FindOneOut δ) := do
    match (← storageRes) with
    | none => pure .nullRes
    | some data =>
      let doc := fromData data
      if popOptActive popOpt then
        let d2 ← populateRes doc
        pure (.found d2)
      else pure (.found doc)
  match chained with
  | .error _ => .ok .undefRes
  | r => r

/-- `Document.find` (lines 295-321): `DB().find` → hydrate → populate if
requested → `[].concat(docs)`; no catch anywhere. -/
def findModel {E γ δ : Type} (storageRes : Except E (List γ))
    (fromData : List γ → List δ) (populateRes : List δ → Except E (List δ))
    (popOpt : PopulateOpt) : Except E (List δ) := do
  let datas ← storageRes
  let docs := fromData datas
  if popOptActive popOpt then populateRes docs else pure docs

/-- `Document.findOneAndUpdate` (lines 215-249): `DB().findOneAndUpdate` →
hydrate → populate when the option is truthy → null-normalisation; no
catch. -/
def findOneAndUpdateModel {E γ δ : Type} (storageRes : Except E (Option γ))
    (fromData : γ → δ) (populateRes : δ → Except E δ) (popOpt : PopulateOpt) :
    Except E (FindOneOut δ) := do
  match (← storageRes) with
  | none => pure .nullRes
  | some data =>
    let doc := fromData data
    if popOptTruthy popOpt then
      let d2 ← populateRes doc
      pure (.found d2)
    else pure (.found doc)

/-- `Document.findOneAndDelete` (lines 266-276): a direct delegation to the
storage adapter; no catch. -/
def findOneAndDeleteModel {E : Type} (storageRes : Except E Nat) : Except E Nat :=
  storageRes

/-! ## Specification-side views used by the theorems -/

/-- The settled outcome of `save()` as the documented sequence: the first
failing step of (preValidate hooks, validate, canonicalize, postValidate
hooks, preSave hooks, storage save, postSave hooks) rejects the whole
call. -/
def saveOutcomeSpec {E : Type} (env : SaveEnv E) (children : List Nat) :
    Except E Unit :=
  seqE
    [seqE ((hookActors children).map (env.hookResult .preValidate)),
     env.validateResult,
     env.canonicalizeResult,
     seqE ((hookActors children).map (env.hookResult .postValidate)),
     seqE ((hookActors children).map (env.hookResult .preSave)),
     env.storageSaveResult.map (fun _ => ()),
     seqE ((hookActors children).map (env.hookResult .postSave))]

/-- The settled outcome of `delete()`: first failure of (preDelete hooks,
postDelete hooks) rejects, otherwise the adapter count is resolved. -/
def deleteOutcomeSpec {E : Type} (hookResult : HookPhase → Actor → Except E Unit)
    (children : List Nat) (store : List String) (docId : Option String) :
    Except E Nat :=
  match seqE ((hookActors children).map (hookResult .preDelete)) with
  | .error e => .error e
  | .ok () =>
    match seqE ((hookActors children).map (hookResult .postDelete)) with
    | .error e => .error e
    | .ok () => .ok (nedbClientDelete store docId).count

/-- The settled outcome of `delete()` with the storage failure channel
kept, as the documented sequence: the first failing step of (preDelete
hooks, storage delete, postDelete hooks) rejects the whole call, otherwise
the removed count is resolved. -/
def deleteOutcomeSpecE {E : Type} (hookResult : HookPhase → Actor → Except E Unit)
    (children : List Nat) (removeResult : Except E Nat) (docId : Option String) :
    Except E Nat :=
  match seqE
      [seqE ((hookActors children).map (hookResult .preDelete)),
       (nedbClientDeleteE removeResult docId).map (fun _ => ()),
       seqE ((hookActors children).map (hookResult .postDelete))] with
  | .error e => .error e
  | .ok () => nedbClientDeleteE removeResult docId

/-- The id keys a document contributes for a refN key: the element keys of
its non-empty array value, nothing otherwise. -/
def refNIdsOf (key : String) (d : PDoc) : List String :=
  match d.getField key with
  | .varr elems => if elems.isEmpty then [] else elems.map elemKey
  | _ => []

/-- The effect of the refN loop on one document: a non-empty array value is
flushed to `[]`. -/
def flushRefN (key : String) (d : PDoc) : PDoc :=
  match d.getField key with
  | .varr elems => if elems.isEmpty then d else d.setField key (.varr [])
  | _ => d

/-- Flushing a document at several refN keys in key order. -/
def flushMany (ks : List String) (d : PDoc) : PDoc :=
  ks.foldl (fun d k => flushRefN k d) d

/-- One elementary map update performed by the collection phases: for class
`cls`, register `ids` (in order, all for the same slot) as refN or ref1
pending ids. -/
structure UpdateEv where
  cls : String
  ids : List String
  slot : Nat × String
  isRefN : Bool

/-- Apply one elementary update to the class map. -/
def applyUpdate (cm : ClassMap) (u : UpdateEv) : ClassMap :=
  updateClass cm u.cls (fun im =>
    u.ids.foldl
      (fun im id => if u.isRefN then addRefNSlot im id u.slot else addRef1Slot im id u.slot)
      im)

/-- The updates of the refN loop for one key over the documents (the
`Nat` is the index of the first document): one update per document whose
value at the key is a non-empty array. -/
def refNUpdates (key cls : String) : Nat → List PDoc → List UpdateEv
  | _, [] => []
  | i, d :: rest =>
    match d.getField key with
    | .varr elems =>
      if elems.isEmpty then refNUpdates key cls (i + 1) rest
      else ⟨cls, elems.map elemKey, (i, key), true⟩ :: refNUpdates key cls (i + 1) rest
    | _ => refNUpdates key cls (i + 1) rest

/-- The updates of the ref1 loop for one key over the documents: one update
per document whose value at the key is a native id. -/
def ref1Updates (key cls : String) : Nat → List PDoc → List UpdateEv
  | _, [] => []
  | i, d :: rest =>
    match d.getField key with
    | .vid s => ⟨cls, [s], (i, key), false⟩ :: ref1Updates key cls (i + 1) rest
    | _ => ref1Updates key cls (i + 1) rest

/-- The reference keys that survive the field filter. -/
def keptKeys (fields : Option (List String)) (kcs : List (String × String)) :
    List (String × String) :=
  kcs.filter (fun kc => !skipKey fields kc.1)

/-- All elementary updates of one `populate` call, in execution order
(refN keys first, then ref1 keys, documents in order below each key), all
computed against the pre-populate documents. -/
def allUpdates (refNKeys ref1Keys : List (String × String))
    (fields : Option (List String)) (docs : List PDoc) : List UpdateEv :=
  (keptKeys fields refNKeys).flatMap (fun kc => refNUpdates kc.1 kc.2 0 docs)
    ++ (keptKeys fields ref1Keys).flatMap (fun kc => ref1Updates kc.1 kc.2 0 docs)

/-- The pending ids collected for one class, in encounter order (with
repetitions). -/
def streamFor (cls : String) (ups : List UpdateEv) : List String :=
  (ups.filter (fun u => u.cls = cls)).flatMap (fun u => u.ids)

/-- Deduplication keeping the first occurrence, continuing an accumulator
(the growth discipline of a JS plain object used as a map). -/
def dedupInto (acc : List String) (l : List String) : List String :=
  l.foldl (fun acc x => if x ∈ acc then acc else acc ++ [x]) acc

/-- Deduplication keeping first occurrences. -/
def dedupFirst (l : List String) : List String :=
  dedupInto [] l

/-- Emptiness as worded by the specification: `undefined`, or not a
number/Date/boolean and without enumerable content (empty string, empty
array, empty plain object; `null` has no enumerable content either). -/
def emptyPerClaim : JsValue → Bool
  | .undef => true
  | .null => true
  | .bool _ => false
  | .num _ => false
  | .date _ => false
  | .str s => s.length == 0
  | .arr l => l.isEmpty
  | .obj entries => entries.isEmpty
  | .docInst _ _ => false
  | .embInst _ => false

/-- The effect of one elementary update on a class's id map (the inner fold
of `applyUpdate`). -/
def innerApply (im : IdMap) (u : UpdateEv) : IdMap :=
  u.ids.foldl
    (fun im id => if u.isRefN then addRefNSlot im id u.slot else addRef1Slot im id u.slot)
    im

/-- The refN slots accumulated for one pending id by a run of updates: each
update contributes its slot once per occurrence of the id in its id list. -/
def refNSlotsFor (id : String) (ups : List UpdateEv) : List (Nat × String) :=
  ups.flatMap (fun u => List.replicate (u.ids.count id) u.slot)

/-- The refN back-fill fold of `backfillRecord`: push the hydrated record
onto the array of every slot, in slot order. -/
def pushFold (r : Rec) (ss : List (Nat × String)) (ds : List PDoc) : List PDoc :=
  ss.foldl
    (fun ds slot => updateDocAt ds slot.1 (fun d =>
      match d.getField slot.2 with
      | .varr l => d.setField slot.2 (.varr (l ++ [.vdoc r]))
      | _ => d))
    ds

end Camo

/-! # Theorems -/

namespace Camo

/-- All-ok operations sequence to ok. -/
theorem seqE_ok {E : Type} (rs : List (Except E Unit)) (h : ∀ r ∈ rs, r = .ok ()) :
    seqE rs = .ok () := by
  induction rs with
  | nil => rfl
  | cons r rest ih =>
    have hr := h r (List.mem_cons_self r rest)
    subst hr
    exact ih (fun r hr => h r (List.mem_cons_of_mem _ hr))

/-- A phase whose hooks all succeed settles ok. -/
theorem seqE_hooks_ok {E : Type} (hookResult : HookPhase → Actor → Except E Unit)
    (children : List Nat) (ph : HookPhase) (h : ∀ a, hookResult ph a = .ok ()) :
    seqE ((hookActors children).map (hookResult ph)) = .ok () := by
  apply seqE_ok
  intro r hr
  obtain ⟨a, _, rfl⟩ := List.mem_map.1 hr
  exact h a

/-- Counterexample to C4 as stated: `_getHookPromises` (base-document.js
lines 567-574) invokes the parent hook immediately after the children's,
without awaiting any of them, and only then does `Promise.all` await the
whole batch — so with one embedded child the parent's preValidate hook is
already invoked (trace position 1) before the child's preValidate hook
settles (trace position 2): an asynchronous child hook does not complete
before the owning document's hook runs, and the save still succeeds. -/
theorem hook_async_overlap_c4_counterexample :
    ((saveModelAsync (E := String)
        ⟨fun _ _ => .ok (), .ok (), .ok (), .ok "someId0000000000"⟩ [0]
        (fun _ => [Actor.child 0, Actor.parentDoc])).1.take 3
      = [AsyncEv.hookInvoked .preValidate (.child 0),
         AsyncEv.hookInvoked .preValidate .parentDoc,
         AsyncEv.hookSettled .preValidate (.child 0)])
  ∧ (saveModelAsync (E := String)
        ⟨fun _ _ => .ok (), .ok (), .ok (), .ok "someId0000000000"⟩ [0]
        (fun _ => [Actor.child 0, Actor.parentDoc])).2 = .ok () :=
  ⟨rfl, rfl⟩

/-- Claim C4 (amended): within a single all-ok `save()` call, the phases
run strictly in the order preValidate hooks, validate, canonicalize,
postValidate hooks, preSave hooks, persist, postSave hooks; within every
hook phase the hooks are invoked on each embedded child first (in
`_getEmbeddeds` order) and then on the owning document, and all of the
phase's hook promises settle — in whatever order the scheduler delivers —
before the next phase step runs.  The parent's hook is invoked without
awaiting the children's, so a child hook's completion need not precede the
parent's invocation. -/
theorem save_phase_order_async_c4 {E : Type} (env : SaveEnv E)
    (children : List Nat) (sched : HookPhase → List Actor)
    (hhooks : ∀ ph a, env.hookResult ph a = .ok ())
    (hv : env.validateResult = .ok ()) (hc : env.canonicalizeResult = .ok ())
    (hs : ∃ id, env.storageSaveResult = .ok id) :
    saveModelAsync env children sched =
      ((children.map Actor.child ++ [Actor.parentDoc]).map
          (AsyncEv.hookInvoked .preValidate)
        ++ (sched .preValidate).map (AsyncEv.hookSettled .preValidate)
        ++ [AsyncEv.validateCall, AsyncEv.canonicalizeCall]
        ++ (children.map Actor.child ++ [Actor.parentDoc]).map
            (AsyncEv.hookInvoked .postValidate)
        ++ (sched .postValidate).map (AsyncEv.hookSettled .postValidate)
        ++ (children.map Actor.child ++ [Actor.parentDoc]).map
            (AsyncEv.hookInvoked .preSave)
        ++ (sched .preSave).map (AsyncEv.hookSettled .preSave)
        ++ [AsyncEv.persistCall]
        ++ (children.map Actor.child ++ [Actor.parentDoc]).map
            (AsyncEv.hookInvoked .postSave)
        ++ (sched .postSave).map (AsyncEv.hookSettled .postSave),
       .ok ()) := by
  obtain ⟨id, hid⟩ := hs
  have hsched : ∀ ph, seqE ((sched ph).map (env.hookResult ph)) = .ok () := by
    intro ph
    apply seqE_ok
    intro r hr
    obtain ⟨a, _, rfl⟩ := List.mem_map.1 hr
    exact hhooks ph a
  have h1 := hsched .preValidate
  have h2 := hsched .postValidate
  have h3 := hsched .preSave
  have h4 := hsched .postSave
  simp [saveModelAsync, runHookPhaseAsync, h1, h2, h3, h4, hv, hc, hid, hookActors]

/-- Closed witness for `save_phase_order_async_c4`: a parent with one
embedded child, all-ok steps, and a scheduler that settles the parent's
hook before the child's in every phase — the child's hook completes after
the parent's has run, yet the phase structure holds. -/
theorem save_phase_order_async_c4_witness :
    saveModelAsync (E := String)
        ⟨fun _ _ => .ok (), .ok (), .ok (), .ok "someId0000000000"⟩ [0]
        (fun _ => [Actor.parentDoc, Actor.child 0]) =
      ([.hookInvoked .preValidate (.child 0), .hookInvoked .preValidate .parentDoc,
        .hookSettled .preValidate .parentDoc, .hookSettled .preValidate (.child 0),
        .validateCall, .canonicalizeCall,
        .hookInvoked .postValidate (.child 0), .hookInvoked .postValidate .parentDoc,
        .hookSettled .postValidate .parentDoc, .hookSettled .postValidate (.child 0),
        .hookInvoked .preSave (.child 0), .hookInvoked .preSave .parentDoc,
        .hookSettled .preSave .parentDoc, .hookSettled .preSave (.child 0),
        .persistCall,
        .hookInvoked .postSave (.child 0), .hookInvoked .postSave .parentDoc,
        .hookSettled .postSave .parentDoc, .hookSettled .postSave (.child 0)],
       .ok ()) := by
  have h := save_phase_order_async_c4 (E := String)
    ⟨fun _ _ => .ok (), .ok (), .ok (), .ok "someId0000000000"⟩ [0]
    (fun _ => [Actor.parentDoc, Actor.child 0])
    (fun _ _ => rfl) rfl rfl ⟨"someId0000000000", rfl⟩
  exact h.trans rfl

/-- C10: `delete()` on a never-saved document (`_id` still `null`) runs the
preDelete and postDelete hooks, performs no storage removal (the NeDB
client resolves `0` without touching the datastore), and resolves with a
deleted-record count of `0`. -/
theorem delete_unsaved_noop_c10 {E : Type}
    (hookResult : HookPhase → Actor → Except E Unit) (children : List Nat)
    (store : List String)
    (hpre : ∀ a, hookResult .preDelete a = .ok ())
    (hpost : ∀ a, hookResult .postDelete a = .ok ()) :
    documentDeleteNedb hookResult children store none =
      (hookEvs .preDelete children ++ hookEvs .postDelete children, store, .ok 0) := by
  have h1 := seqE_hooks_ok hookResult children .preDelete hpre
  have h2 := seqE_hooks_ok hookResult children .postDelete hpost
  simp [documentDeleteNedb, runHookPhase, nedbClientDelete, h1, h2]

/-- Closed witness for `delete_unsaved_noop_c10`. -/
theorem delete_unsaved_noop_c10_witness :
    documentDeleteNedb (E := String) (fun _ _ => .ok ()) [0]
        ["aaaaaaaaaaaaaaaa"] none =
      ([.hook .preDelete (.child 0), .hook .preDelete .parentDoc,
        .hook .postDelete (.child 0), .hook .postDelete .parentDoc],
       ["aaaaaaaaaaaaaaaa"], .ok 0) := by
  have h := delete_unsaved_noop_c10 (E := String) (fun _ _ => .ok ()) [0]
    ["aaaaaaaaaaaaaaaa"] (fun _ => rfl) (fun _ => rfl)
  exact h.trans rfl

/-- Counterexample to C5: a storage error inside `findOne` does not reject
the returned promise — the trailing `.catch(err => console.error(err))`
swallows it and the call resolves with `undefined`. -/
theorem findOne_swallows_error_c5_counterexample :
    findOneModel (E := String) (γ := Unit) (δ := Unit)
        (.error "storage failure") (fun d => d) (fun d => .ok d) .tru
      = .ok .undefRes
    ∧ findOneModel (E := String) (γ := Unit) (δ := Unit)
        (.error "storage failure") (fun d => d) (fun d => .ok d) .tru
      ≠ .error "storage failure" := by
  refine ⟨rfl, fun h => ?_⟩
  rw [show findOneModel (E := String) (γ := Unit) (δ := Unit)
      (.error "storage failure") (fun d => d) (fun d => .ok d) .tru
      = .ok .undefRes from rfl] at h
  exact Except.noConfusion h

/-- C5 (amended): errors from hooks, validation and storage — including a
rejection from the `db.remove` callback inside `delete()` — propagate
unrecovered to the caller through `save()`, `delete()`, `find()`,
`findOneAndUpdate()` and `findOneAndDelete()` — each call settles with the
first failing step's error — but `findOne()` catches every error, logs it,
and resolves with `undefined`, so its promise never rejects. -/
theorem error_propagation_c5 {E γ δ : Type} :
    (∀ (env : SaveEnv E) (children : List Nat),
       (saveModel env children).2 = saveOutcomeSpec env children)
  ∧ (∀ (hookResult : HookPhase → Actor → Except E Unit) (children : List Nat)
       (removeResult : Except E Nat) (docId : Option String),
       documentDeleteE hookResult children removeResult docId
         = deleteOutcomeSpecE hookResult children removeResult docId)
  ∧ (∀ (e : E) (fromData : List γ → List δ)
       (populateRes : List δ → Except E (List δ)) (popOpt : PopulateOpt),
       findModel (.error e) fromData populateRes popOpt = .error e)
  ∧ (∀ (datas : List γ) (fromData : List γ → List δ) (e : E),
       findModel (.ok datas) fromData (fun _ => .error e) .tru = .error e)
  ∧ (∀ (e : E) (fromData : γ → δ) (populateRes : δ → Except E δ)
       (popOpt : PopulateOpt),
       findOneAndUpdateModel (.error e) fromData populateRes popOpt = .error e)
  ∧ (∀ (data : γ) (fromData : γ → δ) (e : E),
       findOneAndUpdateModel (.ok (some data)) fromData (fun _ => .error e) .tru
         = .error e)
  ∧ (∀ (r : Except E Nat), findOneAndDeleteModel r = r)
  ∧ (∀ (storageRes : Except E (Option γ)) (fromData : γ → δ)
       (populateRes : δ → Except E δ) (popOpt : PopulateOpt),
       ∃ out, findOneModel storageRes fromData populateRes popOpt = .ok out)
  ∧ (∀ (e : E) (fromData : γ → δ) (populateRes : δ → Except E δ)
       (popOpt : PopulateOpt),
       findOneModel (.error e) fromData populateRes popOpt = .ok .undefRes) := by
  refine ⟨?_, ?_, ?_, ?_, ?_, ?_, ?_, ?_, ?_⟩
  · intro env children
    simp only [saveModel, saveOutcomeSpec, runHookPhase]
    cases h1 : seqE ((hookActors children).map (env.hookResult .preValidate)) with
    | error e => simp [seqE]
    | ok u =>
      cases u
      simp only [seqE]
      cases hv : env.validateResult with
      | error e => simp [seqE]
      | ok u =>
        cases u
        simp only [seqE]
        cases hc : env.canonicalizeResult with
        | error e => simp [seqE]
        | ok u =>
          cases u
          simp only [seqE]
          cases h2 : seqE ((hookActors children).map (env.hookResult .postValidate)) with
          | error e => simp [seqE]
          | ok u =>
            cases u
            simp only [seqE]
            cases h3 : seqE ((hookActors children).map (env.hookResult .preSave)) with
            | error e => simp [seqE]
            | ok u =>
              cases u
              simp only [seqE]
              cases hsv : env.storageSaveResult with
              | error e => simp [seqE, Except.map]
              | ok i =>
                simp only [seqE, Except.map]
                cases h4 : seqE ((hookActors children).map (env.hookResult .postSave)) with
                | error e => simp [seqE]
                | ok u => cases u; simp [seqE]
  · intro hookResult children removeResult docId
    simp only [documentDeleteE, deleteOutcomeSpecE]
    cases h1 : seqE ((hookActors children).map (hookResult .preDelete)) with
    | error e => simp [seqE]
    | ok u =>
      cases u
      simp only [seqE]
      cases hd : nedbClientDeleteE removeResult docId with
      | error e => simp [seqE, Except.map]
      | ok n =>
        simp only [seqE, Except.map]
        cases h2 : seqE ((hookActors children).map (hookResult .postDelete)) with
        | error e => simp [seqE]
        | ok u => cases u; simp [seqE]
  · intro e fromData populateRes popOpt
    rfl
  · intro datas fromData e
    rfl
  · intro e fromData populateRes popOpt
    rfl
  · intro data fromData e
    rfl
  · intro r
    rfl
  · intro storageRes fromData populateRes popOpt
    simp only [findOneModel]
    cases hres : (do
        match (← storageRes) with
        | none => pure FindOneOut.nullRes
        | some data =>
          let doc := fromData data
          if popOptActive popOpt then
            let d2 ← populateRes doc
            pure (FindOneOut.found d2)
          else pure (FindOneOut.found doc) : Except E (FindOneOut δ)) with
    | error e => exact ⟨.undefRes, by simp [hres]⟩
    | ok out => exact ⟨out, by simp [hres]⟩
  · intro e fromData populateRes popOpt
    rfl

/-- C6 (code bug): under the default policy `create({name, extra: 1})` is
documented and tested to reject unknown raw-data keys, but
`BaseDocument._fromData` silently drops any key that is neither in the
schema nor a property of the instance: the call succeeds and the resulting
instance has no `extra` field (and no error of any kind is raised). -/
theorem fromData_drops_unknown_key_c6 :
    fromDataInstance (fun _ v => v)
        [("_id", { type := .string }), ("name", { type := .string })] []
        [("name", .str "Billy"), ("extra", .num 1)]
      = .ok [("_id", .null), ("name", .str "Billy")]
    ∧ [("_id", JsValue.null), ("name", JsValue.str "Billy")].map Prod.fst
        = ["_id", "name"] := by
  exact ⟨rfl, rfl⟩

/-- C7 (code bug): `getDefault` returns a non-function default by
reference (`typeof def === 'function' ? def() : def`), so an array-literal
default is one shared object: two instantiations hand out the same address,
and pushing through the first instance's field is visible through the
second instance's field — while a factory default allocates per call, so
its instances stay independent. -/
theorem default_array_shared_c7 :
    -- the literal default (allocated once with the schema declaration)
    (instantiateArrayField (.literal 0) ⟨[[7]]⟩).1
        = (instantiateArrayField (.literal 0)
            (instantiateArrayField (.literal 0) ⟨[[7]]⟩).2).1
    ∧ ((instantiateArrayField (.literal 0)
          (instantiateArrayField (.literal 0) ⟨[[7]]⟩).2).2.push
            (instantiateArrayField (.literal 0) ⟨[[7]]⟩).1 9).read
        (instantiateArrayField (.literal 0)
          (instantiateArrayField (.literal 0) ⟨[[7]]⟩).2).1
      = [7, 9]
    -- a factory default produces distinct objects and mutation stays local
    ∧ (instantiateArrayField (.factory [7]) ⟨[[7]]⟩).1
        ≠ (instantiateArrayField (.factory [7])
            (instantiateArrayField (.factory [7]) ⟨[[7]]⟩).2).1
    ∧ ((instantiateArrayField (.factory [7])
          (instantiateArrayField (.factory [7]) ⟨[[7]]⟩).2).2.push
            (instantiateArrayField (.factory [7]) ⟨[[7]]⟩).1 9).read
        (instantiateArrayField (.factory [7])
          (instantiateArrayField (.factory [7]) ⟨[[7]]⟩).2).1
      = [7] := by
  refine ⟨rfl, by decide, by decide, by decide⟩

/-- On non-`null` values `isEmptyValue` computes, and agrees with the
specification's wording of emptiness. -/
theorem isEmptyValue_eq_emptyPerClaim (v : JsValue) (h : v ≠ .null) :
    isEmptyValue v = .ok (emptyPerClaim v) := by
  cases v with
  | null => exact absurd rfl h
  | undef => rfl
  | bool b => rfl
  | num n => rfl
  | date t => rfl
  | str s =>
    simp only [isEmptyValue, emptyPerClaim, jsObjectKeys, JsValue.isUndef, typeofStr,
      instanceofDate]
    norm_num
    cases hl : s.length with
    | zero => simp [hl, List.range_zero]
    | succ n => simp [hl, List.range_succ]
  | arr l =>
    simp only [isEmptyValue, emptyPerClaim, jsObjectKeys, JsValue.isUndef, typeofStr,
      instanceofDate]
    norm_num
    cases l with
    | nil => simp
    | cons x xs => simp [List.range_succ]
  | obj entries =>
    simp only [isEmptyValue, emptyPerClaim, jsObjectKeys, JsValue.isUndef, typeofStr,
      instanceofDate]
    norm_num
    cases entries <;> simp
  | docInst c i => rfl
  | embInst t => rfl

/-- `BaseDocument.validate` runs the six checks of one field in the fixed
source order and throws the error of the first failing one. -/
theorem validateFieldChecks_eq_firstFailing (dp : JsValue → Option Int)
    (coll key : String) (en : SchemaEntry) (v : JsValue)
    (hty : ∃ b, isValidType dp v en.type = .ok b)
    (hemp : ∃ b, (if en.required then isEmptyValue v else .ok false) = .ok b) :
    validateFieldChecks dp coll key en v =
      (firstFailingCheck dp en v).elim (.ok ())
        (fun k => .error (checkError k coll key en v)) := by
  obtain ⟨b, hb⟩ := hty
  obtain ⟨be, he⟩ := hemp
  cases b with
  | false =>
    simp [validateFieldChecks, hb, firstFailingCheck, CHECK_ORDER, List.find?,
      checkFails, checkError]
  | true =>
    cases hreq : en.required with
    | false =>
      by_cases h1 : matchViolated en v <;>
        by_cases h2 : isInChoices en.choices v <;>
          by_cases h3 : minViolated en v <;>
            by_cases h4 : maxViolated en v <;>
              by_cases h5 : customViolated en v <;>
                simp [validateFieldChecks, hb, hreq, firstFailingCheck, CHECK_ORDER,
                  List.find?, checkFails, checkError, h1, h2, h3, h4, h5]
    | true =>
      rw [hreq] at he
      simp only [if_true] at he
      cases be with
      | true =>
        simp [validateFieldChecks, hb, hreq, he, firstFailingCheck, CHECK_ORDER,
          List.find?, checkFails, checkError]
      | false =>
        by_cases h1 : matchViolated en v <;>
          by_cases h2 : isInChoices en.choices v <;>
            by_cases h3 : minViolated en v <;>
              by_cases h4 : maxViolated en v <;>
                by_cases h5 : customViolated en v <;>
                  simp [validateFieldChecks, hb, hreq, he, firstFailingCheck, CHECK_ORDER,
                    List.find?, checkFails, checkError, h1, h2, h3, h4, h5]

/-- The whole-document traversal stops at the first failing field: if every
field before the split validates cleanly and the split field fails, its
error is the document's. -/
theorem validateDoc_first_error (dp : JsValue → Option Int)
    (embV : Nat → Except CamoError Unit) (d : DocModel)
    (pre post : List (String × SchemaEntry × JsValue))
    (key : String) (en : SchemaEntry) (v : JsValue) (e : CamoError)
    (hsplit : d.fields = pre ++ (key, en, v) :: post)
    (hpre : ∀ f ∈ pre, validateField dp embV d.collName f.1 f.2.1 f.2.2 = .ok ())
    (herr : validateField dp embV d.collName key en v = .error e) :
    validateDoc dp embV d = .error e := by
  unfold validateDoc
  rw [hsplit]
  clear hsplit
  induction pre with
  | nil =>
    rw [List.nil_append,
      show (((key, en, v) :: post).forM fun f =>
          validateField dp embV d.collName f.1 f.2.1 f.2.2)
        = (validateField dp embV d.collName key en v >>= fun _ =>
            post.forM fun f => validateField dp embV d.collName f.1 f.2.1 f.2.2) from rfl,
      herr]
    rfl
  | cons a rest ih =>
    rw [List.cons_append,
      show ((a :: (rest ++ (key, en, v) :: post)).forM fun f =>
          validateField dp embV d.collName f.1 f.2.1 f.2.2)
        = (validateField dp embV d.collName a.1 a.2.1 a.2.2 >>= fun _ =>
            (rest ++ (key, en, v) :: post).forM fun f =>
              validateField dp embV d.collName f.1 f.2.1 f.2.2) from rfl,
      hpre a (List.mem_cons_self a rest)]
    exact ih (fun f hf => hpre f (List.mem_cons_of_mem _ hf))

/-- C3: `validate()` checks each field in the fixed order type conformance,
required-ness, regex match, choices membership, min bound, max bound, user
predicate (the error raised for a field is the first failing check of that
order), iterates fields in schema declaration order, and stops the whole
document's validation at the first failing check; in particular a document
whose first field is wrong-typed fails with that type error even when a
later field violates its `choices` constraint. -/
theorem validation_order_c3 (dp : JsValue → Option Int)
    (embV : Nat → Except CamoError Unit) (coll key : String) (en : SchemaEntry)
    (v : JsValue)
    (hshort : validateField dp embV coll key en v = validateFieldChecks dp coll key en v)
    (hty : ∃ b, isValidType dp v en.type = .ok b)
    (hemp : ∃ b, (if en.required then isEmptyValue v else .ok false) = .ok b) :
    validateField dp embV coll key en v =
      (firstFailingCheck dp en v).elim (.ok ())
        (fun k => .error (checkError k coll key en v))
  ∧ ∀ (d : DocModel) (pre post : List (String × SchemaEntry × JsValue)) (e : CamoError),
      d.fields = pre ++ (key, en, v) :: post →
      (∀ f ∈ pre, validateField dp embV d.collName f.1 f.2.1 f.2.2 = .ok ()) →
      validateField dp embV d.collName key en v = .error e →
      validateDoc dp embV d = .error e := by
  constructor
  · rw [hshort]
    exact validateFieldChecks_eq_firstFailing dp coll key en v hty hemp
  · intro d pre post e h1 h2 h3
    exact validateDoc_first_error dp embV d pre post key en v e h1 h2 h3

/-- Closed witness for `validation_order_c3`: with a wrong-typed Number
field first and a later String field violating its `choices`, the document
fails with the type error for the first field. -/
theorem validation_order_c3_witness :
    validateDoc (fun _ => none) (fun _ => .ok ())
        ⟨"datas",
         [("num", { type := .number }, .str "x"),
          ("source", { type := .string, choices := some [.str "wired"] }, .str "google")]⟩
      = .error (.validation .typeCheck (typeErrMsg "datas" "num" .number (.str "x")))
    ∧ checkFails (fun _ => none)
        { type := .string, choices := some [.str "wired"] } (.str "google")
        .choicesCheck = true := by
  have h := validation_order_c3 (fun _ => none) (fun _ => .ok ()) "datas" "num"
    { type := .number } (.str "x") rfl ⟨false, rfl⟩ ⟨false, rfl⟩
  refine ⟨?_, rfl⟩
  exact h.2
    ⟨"datas",
     [("num", { type := .number }, .str "x"),
      ("source", { type := .string, choices := some [.str "wired"] }, .str "google")]⟩
    [] [("source", { type := .string, choices := some [.str "wired"] }, .str "google")]
    (.validation .typeCheck (typeErrMsg "datas" "num" .number (.str "x")))
    rfl (fun f hf => absurd hf (List.not_mem_nil f)) (h.1.trans rfl)

/-- Counterexample to C8: a required field holding `null` does not raise
the typed validation error carrying class and field name — `isEmptyValue`
evaluates `Object.keys(null)` and a bare `TypeError` escapes instead. -/
theorem required_null_c8_counterexample :
    validateField (fun _ => none) (fun _ => .ok ()) "people" "name"
        { type := .string, required := true } .null
      = .error (.typeError "Cannot convert undefined or null to object") := by
  rfl

/-- C8 (amended): for a required field whose value passes the type check
and is not `null`, `validate()` raises the typed required-ness
`ValidationError` carrying the owning collection name and field name
exactly when the value is empty in the specification's sense (`undefined`,
or not a number/Date/boolean and without enumerable content); a `null`
value instead escapes as a `TypeError` (see the counterexample). -/
theorem required_empty_check_c8 (dp : JsValue → Option Int)
    (embV : Nat → Except CamoError Unit) (coll key : String) (en : SchemaEntry)
    (v : JsValue)
    (hshort : validateField dp embV coll key en v = validateFieldChecks dp coll key en v)
    (hreq : en.required = true)
    (hnn : v ≠ .null)
    (hty : isValidType dp v en.type = .ok true) :
    (emptyPerClaim v = true →
      validateField dp embV coll key en v
        = .error (.validation .requiredCheck (requiredErrMsg coll key v))
      ∧ requiredErrMsg coll key v
          = "Key " ++ (coll ++ "." ++ key) ++ (" is required, but got " ++ jsDisplay v))
  ∧ (emptyPerClaim v = false →
      ∀ msg, validateField dp embV coll key en v
        ≠ .error (.validation .requiredCheck msg)) := by
  have he := isEmptyValue_eq_emptyPerClaim v hnn
  constructor
  · intro hempty
    rw [hempty] at he
    constructor
    · rw [hshort]
      simp [validateFieldChecks, hty, hreq, he]
    · simp [requiredErrMsg, String.append_assoc]
  · intro hempty msg
    rw [hempty] at he
    rw [hshort]
    by_cases h1 : matchViolated en v <;>
      by_cases h2 : isInChoices en.choices v <;>
        by_cases h3 : minViolated en v <;>
          by_cases h4 : maxViolated en v <;>
            by_cases h5 : customViolated en v <;>
              simp [validateFieldChecks, hty, hreq, he, h1, h2, h3, h4, h5]

/-- Closed witness for `required_empty_check_c8`: an empty string on a
required field raises the required error with the collection and field
name, a non-empty string never raises the required error. -/
theorem required_empty_check_c8_witness :
    validateField (fun _ => none) (fun _ => .ok ()) "people" "name"
        { type := .string, required := true } (.str "")
      = .error (.validation .requiredCheck (requiredErrMsg "people" "name" (.str "")))
    ∧ ∀ msg, validateField (fun _ => none) (fun _ => .ok ()) "people" "name"
        { type := .string, required := true } (.str "Scott")
      ≠ .error (.validation .requiredCheck msg) := by
  have h1 := required_empty_check_c8 (fun _ => none) (fun _ => .ok ()) "people" "name"
    { type := .string, required := true } (.str "") rfl rfl
    (fun h => JsValue.noConfusion h) rfl
  have h2 := required_empty_check_c8 (fun _ => none) (fun _ => .ok ()) "people" "name"
    { type := .string, required := true } (.str "Scott") rfl rfl
    (fun h => JsValue.noConfusion h) rfl
  exact ⟨(h1.1 rfl).1, h2.2 rfl⟩

/-- Counterexample to C9: a `Date`-typed field declared with a `Date`-object
`min` bound is not bounds-checked at all — `isNumber(schema.min)` is false,
so a value far below the bound validates cleanly (the claim requires a
bounds failure whenever the value is below `min`). -/
theorem date_bound_ignored_c9_counterexample :
    validateField (fun _ => none) (fun _ => .ok ()) "people" "birth"
        { type := .date, min := some (.date 1000) } (.date 0)
      = .ok ()
    ∧ jsLt (.date 0) (.date 1000) = true := by
  exact ⟨rfl, rfl⟩

/-- C9 (amended): bounds are enforced only when the declared `min`/`max` is
a number.  For a field with numeric bounds whose value passes the type
check and is a number or a Date (compared by timestamp), `validate()`
fails with a `ValidationError` naming the field whenever the value is
below `min` or above `max` (min checked first), and passes the bounds
checks whenever `min ≤ value ≤ max`. -/
theorem numeric_bounds_c9 (dp : JsValue → Option Int)
    (embV : Nat → Except CamoError Unit) (coll key : String) (t : SchemaType)
    (req : Bool) (mre : Option JsRegex) (lo hi : Option Int) (x : Int) (v : JsValue)
    (en : SchemaEntry)
    (hv : v = .num x ∨ v = .date x)
    (hen : en = { type := t, required := req, matchRe := mre, choices := none,
                  min := lo.map JsValue.num, max := hi.map JsValue.num,
                  validateFn := none })
    (hty : isValidType dp v t = .ok true) :
    (∀ l, lo = some l → x < l →
        validateField dp embV coll key en v
          = .error (.validation .minCheck (minErrMsg coll key (.num l) v)))
  ∧ (∀ h2, hi = some h2 → (∀ l, lo = some l → l ≤ x) → h2 < x →
        validateField dp embV coll key en v
          = .error (.validation .maxCheck (maxErrMsg coll key (.num h2) v)))
  ∧ ((∀ l, lo = some l → l ≤ x) → (∀ h2, hi = some h2 → x ≤ h2) →
        validateField dp embV coll key en v = .ok ())
  ∧ (∀ m w, minErrMsg coll key m w
        = "Value assigned to " ++ (coll ++ "." ++ key)
            ++ (" is less than min, " ++ (jsDisplay m ++ (", got " ++ jsDisplay w))))
  ∧ (∀ m w, maxErrMsg coll key m w
        = "Value assigned to " ++ (coll ++ "." ++ key)
            ++ (" is less than max, " ++ (jsDisplay m ++ (", got " ++ jsDisplay w)))) := by
  subst hen
  refine ⟨?_, ?_, ?_, ?_, ?_⟩
  · intro l hlo hlt
    subst hlo
    rcases hv with rfl | rfl <;> cases mre <;> cases req <;>
      simp [validateField, validateFieldChecks, hty, isEmptyValue, JsValue.isUndef,
        typeofStr, instanceofDate, jsObjectKeys, matchViolated, isInChoices,
        minViolated, jsLt, jsToNumber, isNumberVal, hlt]
  · intro h2 hhi hge hgt
    subst hhi
    rcases hv with rfl | rfl <;> cases mre <;> cases req <;> cases lo <;>
      simp [validateField, validateFieldChecks, hty, isEmptyValue, JsValue.isUndef,
        typeofStr, instanceofDate, jsObjectKeys, matchViolated, isInChoices,
        minViolated, maxViolated, customViolated, jsLt, jsGt, jsToNumber,
        isNumberVal, hgt]
    all_goals
      try have hx := hge _ rfl
      omega
  · intro hge hle
    rcases hv with rfl | rfl <;> cases mre <;> cases req <;> cases lo <;> cases hi <;>
      simp [validateField, validateFieldChecks, hty, isEmptyValue, JsValue.isUndef,
        typeofStr, instanceofDate, jsObjectKeys, matchViolated, isInChoices,
        minViolated, maxViolated, customViolated, jsLt, jsGt, jsToNumber, isNumberVal]
    all_goals
      try have hx := hge _ rfl
      try have hy := hle _ rfl
      first
        | omega
        | (split_ifs <;> first | rfl | (exfalso; omega))
  · intro m w
    simp [minErrMsg, String.append_assoc]
  · intro m w
    simp [maxErrMsg, String.append_assoc]

/-- Closed witness for `numeric_bounds_c9`: the specification's concrete
scenario — schema `name: String, age: Number min 0 max 120, tags: [String]`
and `age = 150` — rejects with the bounds error naming `datas.age`, both
for the single field and for the whole document. -/
theorem numeric_bounds_c9_witness :
    validateField (fun _ => none) (fun _ => .ok ()) "datas" "age"
        { type := .number, min := some (.num 0), max := some (.num 120) } (.num 150)
      = .error (.validation .maxCheck (maxErrMsg "datas" "age" (.num 120) (.num 150)))
    ∧ validateDoc (fun _ => none) (fun _ => .ok ())
        ⟨"datas",
         [("name", { type := .string }, .str "A"),
          ("age", { type := .number, min := some (.num 0), max := some (.num 120) },
           .num 150),
          ("tags", { type := .jsArray [.string] }, .arr [])]⟩
      = .error (.validation .maxCheck (maxErrMsg "datas" "age" (.num 120) (.num 150))) := by
  have h := numeric_bounds_c9 (fun _ => none) (fun _ => .ok ()) "datas" "age"
    .number false none (some 0) (some 120) 150 (.num 150)
    { type := .number, min := some (.num 0), max := some (.num 120) }
    (Or.inl rfl) rfl rfl
  refine ⟨?_, rfl⟩
  exact h.2.1 120 rfl (fun l hl => by cases hl; omega) (by omega)

/-! ## Association-list lemmas for the population maps -/

theorem lookup_map_overwrite {α : Type} (k : String) (g : α → α)
    (l : List (String × α)) :
    (l.map (fun e => if e.1 = k then (e.1, g e.2) else e)).lookup k
      = (l.lookup k).map g := by
  induction l with
  | nil => rfl
  | cons f rest ih =>
    obtain ⟨k1, v1⟩ := f
    by_cases h : k1 = k
    · subst h
      rw [List.map_cons]
      dsimp only
      rw [if_pos rfl]
      simp [List.lookup, ih]
    · rw [List.map_cons]
      dsimp only
      rw [if_neg h]
      have hb : (k == k1) = false := beq_eq_false_iff_ne.2 (Ne.symm h)
      simp [List.lookup, hb, ih]

theorem lookup_map_overwrite_ne {α : Type} (k k2 : String) (g : α → α)
    (l : List (String × α)) (hne : k2 ≠ k) :
    (l.map (fun e => if e.1 = k then (e.1, g e.2) else e)).lookup k2
      = l.lookup k2 := by
  induction l with
  | nil => rfl
  | cons f rest ih =>
    obtain ⟨k1, v1⟩ := f
    by_cases h : k1 = k
    · subst h
      rw [List.map_cons]
      dsimp only
      rw [if_pos rfl]
      have hb : (k2 == k1) = false := beq_eq_false_iff_ne.2 hne
      simp [List.lookup, hb, ih]
    · rw [List.map_cons]
      dsimp only
      rw [if_neg h]
      by_cases h2 : k2 = k1
      · subst h2
        simp [List.lookup]
      · have hb : (k2 == k1) = false := beq_eq_false_iff_ne.2 h2
        simp [List.lookup, hb, ih]

theorem keys_map_overwrite {α : Type} (k : String) (g : α → α)
    (l : List (String × α)) :
    (l.map (fun e => if e.1 = k then (e.1, g e.2) else e)).map Prod.fst
      = l.map Prod.fst := by
  induction l with
  | nil => rfl
  | cons f rest ih =>
    obtain ⟨k1, v1⟩ := f
    by_cases h : k1 = k
    · subst h
      rw [List.map_cons]
      dsimp only
      rw [if_pos rfl]
      simp [ih]
    · rw [List.map_cons]
      dsimp only
      rw [if_neg h]
      simp [ih]

theorem lookup_append_str {α : Type} (l1 l2 : List (String × α)) (k : String) :
    (l1 ++ l2).lookup k
      = match l1.lookup k with
        | some v => some v
        | none => l2.lookup k := by
  induction l1 with
  | nil => rfl
  | cons f rest ih =>
    obtain ⟨k1, v1⟩ := f
    by_cases h : k = k1
    · subst h
      simp [List.lookup]
    · have hb : (k == k1) = false := beq_eq_false_iff_ne.2 h
      simp [List.lookup, hb, ih]

theorem lookup_isSome_iff_mem_keys {α : Type} (l : List (String × α)) (k : String) :
    (l.lookup k).isSome ↔ k ∈ l.map Prod.fst := by
  induction l with
  | nil => simp [List.lookup]
  | cons f rest ih =>
    obtain ⟨k1, v1⟩ := f
    by_cases h : k = k1
    · subst h
      simp [List.lookup]
    · have hb : (k == k1) = false := beq_eq_false_iff_ne.2 h
      simp [List.lookup, hb, ih, h]

theorem lookup_of_mem_nodup {α : Type} (l : List (String × α)) (e : String × α)
    (hmem : e ∈ l) (hnd : (l.map Prod.fst).Nodup) : l.lookup e.1 = some e.2 := by
  induction l with
  | nil => cases hmem
  | cons f rest ih =>
    rcases List.mem_cons.1 hmem with rfl | hmem2
    · simp [List.lookup]
    · have hne : e.1 ≠ f.1 := by
        intro hEq
        have hm : e.1 ∈ rest.map Prod.fst := List.mem_map.2 ⟨e, hmem2, rfl⟩
        rw [hEq] at hm
        exact (List.nodup_cons.1 (by simpa using hnd)).1 hm
      have hb : (e.1 == f.1) = false := beq_eq_false_iff_ne.2 hne
      simp only [List.lookup, hb]
      exact ih hmem2 (List.nodup_cons.1 (by simpa using hnd)).2

/-- Overwriting every entry keyed `k` with the constant `(k, v)`. -/
theorem lookup_map_setconst {α : Type} (k : String) (v : α) (l : List (String × α)) :
    (l.map (fun f => if f.1 = k then (k, v) else f)).lookup k
      = if l.any (fun f => f.1 = k) then some v else none := by
  induction l with
  | nil => rfl
  | cons f rest ih =>
    obtain ⟨k1, v1⟩ := f
    by_cases h : k1 = k
    · subst h
      rw [List.map_cons]
      dsimp only
      rw [if_pos rfl]
      simp [List.lookup, List.any_cons]
    · rw [List.map_cons]
      dsimp only
      rw [if_neg h]
      have hb : (k == k1) = false := beq_eq_false_iff_ne.2 (Ne.symm h)
      simp only [List.lookup, hb, List.any_cons, ih]
      have hd : decide (k1 = k) = false := decide_eq_false h
      simp only [hd, Bool.false_or]

theorem lookup_map_setconst_ne {α : Type} (k k2 : String) (v : α)
    (l : List (String × α)) (hne : k2 ≠ k) :
    (l.map (fun f => if f.1 = k then (k, v) else f)).lookup k2 = l.lookup k2 := by
  induction l with
  | nil => rfl
  | cons f rest ih =>
    obtain ⟨k1, v1⟩ := f
    by_cases h : k1 = k
    · subst h
      rw [List.map_cons]
      dsimp only
      rw [if_pos rfl]
      have hb : (k2 == k1) = false := beq_eq_false_iff_ne.2 hne
      simp [List.lookup, hb, ih]
    · rw [List.map_cons]
      dsimp only
      rw [if_neg h]
      by_cases h2 : k2 = k1
      · subst h2
        simp [List.lookup]
      · have hb : (k2 == k1) = false := beq_eq_false_iff_ne.2 h2
        simp [List.lookup, hb, ih]

theorem lookup_none_of_any_false {α : Type} (k : String) (l : List (String × α))
    (h : l.any (fun f => f.1 = k) = false) : l.lookup k = none := by
  induction l with
  | nil => rfl
  | cons f rest ih =>
    obtain ⟨k1, v1⟩ := f
    rw [List.any_cons] at h
    have h1 : ¬(k1 = k) := by
      intro hEq
      simp [hEq] at h
    have hb : (k == k1) = false := beq_eq_false_iff_ne.2 (Ne.symm h1)
    simp only [List.lookup, hb]
    exact ih (by simpa [h1] using h)

/-! ## `PDoc` field access lemmas -/

theorem PDoc.getField_setField_same (d : PDoc) (k : String) (v : FieldVal) :
    (d.setField k v).getField k = v := by
  unfold PDoc.setField PDoc.getField
  by_cases h : d.fields.any (fun f => f.1 = k)
  · simp [if_pos h, lookup_map_setconst, h]
  · simp only [if_neg h, Bool.not_eq_true] at *
    rw [lookup_append_str, lookup_none_of_any_false k d.fields h]
    simp [List.lookup]

theorem PDoc.getField_setField_ne (d : PDoc) (k k2 : String) (v : FieldVal)
    (hne : k2 ≠ k) : (d.setField k v).getField k2 = d.getField k2 := by
  unfold PDoc.setField PDoc.getField
  by_cases h : d.fields.any (fun f => f.1 = k)
  · simp only [if_pos h]
    rw [lookup_map_setconst_ne k k2 v d.fields hne]
  · simp only [if_neg h]
    rw [lookup_append_str]
    cases hl : d.fields.lookup k2 with
    | some w => simp
    | none =>
      have hb : (k2 == k) = false := beq_eq_false_iff_ne.2 hne
      simp [List.lookup, hb]

/-! ## Map-building lemmas for `populate` -/

theorem updateClass_lookup_same (cm : ClassMap) (cls : String) (f : IdMap → IdMap) :
    (updateClass cm cls f).lookup cls = some (f ((cm.lookup cls).getD [])) := by
  unfold updateClass
  cases hl : cm.lookup cls with
  | some im =>
    rw [if_pos (by simp [hl])]
    rw [lookup_map_overwrite cls f cm, hl]
    rfl
  | none =>
    rw [if_neg (by simp [hl])]
    rw [lookup_append_str, hl]
    simp [List.lookup]

theorem updateClass_lookup_ne (cm : ClassMap) (cls c : String) (f : IdMap → IdMap)
    (hne : c ≠ cls) : (updateClass cm cls f).lookup c = cm.lookup c := by
  unfold updateClass
  by_cases h : (cm.lookup cls).isSome
  · rw [if_pos h]
    exact lookup_map_overwrite_ne cls c f cm hne
  · rw [if_neg h, lookup_append_str]
    cases hl : cm.lookup c with
    | some im => rfl
    | none =>
      have hb : (c == cls) = false := beq_eq_false_iff_ne.2 hne
      simp [List.lookup, hb]

theorem updateClass_keys (cm : ClassMap) (cls : String) (f : IdMap → IdMap) :
    (updateClass cm cls f).map Prod.fst
      = if (cm.lookup cls).isSome then cm.map Prod.fst
        else cm.map Prod.fst ++ [cls] := by
  unfold updateClass
  by_cases h : (cm.lookup cls).isSome
  · rw [if_pos h, if_pos h]
    exact keys_map_overwrite cls f cm
  · rw [if_neg h, if_neg h]
    simp

theorem addRefNSlot_lookup_same (m : IdMap) (id : String) (slot : Nat × String) :
    (addRefNSlot m id slot).lookup id
      = some (match m.lookup id with
              | some t => ⟨t.ref1Slots, t.refNSlots ++ [slot]⟩
              | none => ⟨[], [slot]⟩) := by
  unfold addRefNSlot
  cases hl : m.lookup id with
  | some t =>
    rw [if_pos (by simp [hl])]
    rw [lookup_map_overwrite id (fun t => ⟨t.ref1Slots, t.refNSlots ++ [slot]⟩) m, hl]
    rfl
  | none =>
    rw [if_neg (by simp [hl])]
    rw [lookup_append_str, hl]
    simp [List.lookup]

theorem addRefNSlot_lookup_ne (m : IdMap) (id id2 : String) (slot : Nat × String)
    (hne : id2 ≠ id) : (addRefNSlot m id slot).lookup id2 = m.lookup id2 := by
  unfold addRefNSlot
  by_cases h : (m.lookup id).isSome
  · rw [if_pos h]
    exact lookup_map_overwrite_ne id id2
      (fun t => ⟨t.ref1Slots, t.refNSlots ++ [slot]⟩) m hne
  · rw [if_neg h, lookup_append_str]
    cases hl : m.lookup id2 with
    | some t => rfl
    | none =>
      have hb : (id2 == id) = false := beq_eq_false_iff_ne.2 hne
      simp [List.lookup, hb]

theorem addRefNSlot_keys (m : IdMap) (id : String) (slot : Nat × String) :
    (addRefNSlot m id slot).map Prod.fst
      = if (m.lookup id).isSome then m.map Prod.fst else m.map Prod.fst ++ [id] := by
  unfold addRefNSlot
  by_cases h : (m.lookup id).isSome
  · rw [if_pos h, if_pos h]
    exact keys_map_overwrite id (fun t => ⟨t.ref1Slots, t.refNSlots ++ [slot]⟩) m
  · rw [if_neg h, if_neg h]
    simp

theorem addRef1Slot_keys (m : IdMap) (id : String) (slot : Nat × String) :
    (addRef1Slot m id slot).map Prod.fst
      = if (m.lookup id).isSome then m.map Prod.fst else m.map Prod.fst ++ [id] := by
  unfold addRef1Slot
  by_cases h : (m.lookup id).isSome
  · rw [if_pos h, if_pos h]
    exact keys_map_overwrite id (fun t => ⟨t.ref1Slots ++ [slot], t.refNSlots⟩) m
  · rw [if_neg h, if_neg h]
    simp

/-! ## Deduplication lemmas -/

theorem dedupInto_cons (acc : List String) (x : String) (l : List String) :
    dedupInto acc (x :: l) = dedupInto (if x ∈ acc then acc else acc ++ [x]) l := rfl

theorem dedupInto_append (acc l1 l2 : List String) :
    dedupInto acc (l1 ++ l2) = dedupInto (dedupInto acc l1) l2 :=
  List.foldl_append _ _ _ _

theorem mem_dedupInto (acc l : List String) (x : String) :
    x ∈ dedupInto acc l ↔ x ∈ acc ∨ x ∈ l := by
  induction l generalizing acc with
  | nil => simp [dedupInto]
  | cons y rest ih =>
    rw [dedupInto_cons, ih]
    by_cases hy : y ∈ acc
    · simp only [if_pos hy]
      constructor
      · rintro (h | h)
        · exact Or.inl h
        · exact Or.inr (List.mem_cons_of_mem _ h)
      · rintro (h | h)
        · exact Or.inl h
        · rcases List.mem_cons.1 h with rfl | h2
          · exact Or.inl hy
          · exact Or.inr h2
    · simp only [if_neg hy, List.mem_append, List.mem_singleton]
      constructor
      · rintro ((h | h) | h)
        · exact Or.inl h
        · exact Or.inr (h ▸ List.mem_cons_self _ _)
        · exact Or.inr (List.mem_cons_of_mem _ h)
      · rintro (h | h)
        · exact Or.inl (Or.inl h)
        · rcases List.mem_cons.1 h with rfl | h2
          · exact Or.inl (Or.inr rfl)
          · exact Or.inr h2

theorem nodup_dedupInto (acc l : List String) (h : acc.Nodup) :
    (dedupInto acc l).Nodup := by
  induction l generalizing acc with
  | nil => exact h
  | cons y rest ih =>
    rw [dedupInto_cons]
    by_cases hy : y ∈ acc
    · rw [if_pos hy]
      exact ih acc h
    · rw [if_neg hy]
      refine ih _ ?_
      rw [List.nodup_append]
      exact ⟨h, List.nodup_singleton y, by simpa using hy⟩

theorem dedupFirst_nodup (l : List String) : (dedupFirst l).Nodup :=
  nodup_dedupInto [] l List.nodup_nil

theorem mem_dedupFirst (l : List String) (x : String) :
    x ∈ dedupFirst l ↔ x ∈ l := by
  rw [dedupFirst, mem_dedupInto]
  simp

theorem dedupFirst_append (l1 l2 : List String) :
    dedupFirst (l1 ++ l2) = dedupInto (dedupFirst l1) l2 :=
  dedupInto_append [] l1 l2

/-- The inner id fold of `applyUpdate` grows the id-key list exactly like
first-occurrence deduplication. -/
theorem innerfold_keys (b : Bool) (slot : Nat × String) (ids : List String)
    (im : IdMap) :
    ((ids.foldl
        (fun im id => if b then addRefNSlot im id slot else addRef1Slot im id slot)
        im).map Prod.fst)
      = dedupInto (im.map Prod.fst) ids := by
  induction ids generalizing im with
  | nil => rfl
  | cons x rest ih =>
    rw [List.foldl_cons, dedupInto_cons, ih]
    congr 1
    by_cases hmem : x ∈ im.map Prod.fst
    · have hs : (im.lookup x).isSome := (lookup_isSome_iff_mem_keys im x).2 hmem
      cases b <;>
        simp [addRefNSlot_keys, addRef1Slot_keys, hs, hmem]
    · have hs : ¬(im.lookup x).isSome := fun h =>
        hmem ((lookup_isSome_iff_mem_keys im x).1 h)
      cases b <;>
        simp [addRefNSlot_keys, addRef1Slot_keys, hs, hmem]

theorem streamFor_append (cls : String) (ups1 ups2 : List UpdateEv) :
    streamFor cls (ups1 ++ ups2) = streamFor cls ups1 ++ streamFor cls ups2 := by
  simp [streamFor, List.filter_append]

theorem streamFor_single (cls : String) (u : UpdateEv) :
    streamFor cls [u] = if u.cls = cls then u.ids else [] := by
  by_cases h : u.cls = cls <;> simp [streamFor, List.filter, h]

theorem applyUpdate_keys (cm : ClassMap) (u : UpdateEv) :
    (applyUpdate cm u).map Prod.fst
      = if (cm.lookup u.cls).isSome then cm.map Prod.fst
        else cm.map Prod.fst ++ [u.cls] :=
  updateClass_keys cm u.cls _

theorem applyUpdate_lookup_same (cm : ClassMap) (u : UpdateEv) :
    (applyUpdate cm u).lookup u.cls
      = some (u.ids.foldl
          (fun im id => if u.isRefN then addRefNSlot im id u.slot
                        else addRef1Slot im id u.slot)
          ((cm.lookup u.cls).getD [])) :=
  updateClass_lookup_same cm u.cls _

theorem applyUpdate_lookup_ne (cm : ClassMap) (u : UpdateEv) (c : String)
    (hne : c ≠ u.cls) : (applyUpdate cm u).lookup c = cm.lookup c :=
  updateClass_lookup_ne cm u.cls c _ hne

/-- Invariant of the class-map fold: class keys are duplicate-free, a class
has an entry exactly when some pending id was collected for it, and the
entry's id keys are the collected ids deduplicated keeping first
occurrences. -/
theorem foldl_applyUpdate_char (ups : List UpdateEv)
    (hne : ∀ u ∈ ups, u.ids ≠ []) :
    (((ups.foldl applyUpdate []).map Prod.fst).Nodup)
  ∧ (∀ cls, (((ups.foldl applyUpdate []).lookup cls).isSome ↔ streamFor cls ups ≠ []))
  ∧ (∀ cls im, (ups.foldl applyUpdate []).lookup cls = some im →
       im.map Prod.fst = dedupFirst (streamFor cls ups)) := by
  induction ups using List.reverseRecOn with
  | nil =>
    refine ⟨List.nodup_nil, ?_, ?_⟩
    · intro cls
      simp [List.lookup, streamFor]
    · intro cls im h
      cases h
  | append_singleton ups u ih =>
    have hne1 : ∀ w ∈ ups, w.ids ≠ [] := fun w hw =>
      hne w (List.mem_append.2 (Or.inl hw))
    have hneu : u.ids ≠ [] := hne u (List.mem_append.2 (Or.inr (List.mem_singleton.2 rfl)))
    obtain ⟨ihnd, ihsome, ihkeys⟩ := ih hne1
    rw [List.foldl_append]
    simp only [List.foldl_cons, List.foldl_nil]
    set cm := ups.foldl applyUpdate [] with hcm
    refine ⟨?_, ?_, ?_⟩
    · rw [applyUpdate_keys]
      by_cases h : (cm.lookup u.cls).isSome
      · rw [if_pos h]
        exact ihnd
      · rw [if_neg h]
        rw [List.nodup_append]
        refine ⟨ihnd, List.nodup_singleton _, ?_⟩
        intro x hx hx2
        rw [List.mem_singleton] at hx2
        subst hx2
        exact h ((lookup_isSome_iff_mem_keys cm u.cls).2 hx)
    · intro cls
      rw [streamFor_append, streamFor_single]
      by_cases hc : cls = u.cls
      · subst hc
        rw [applyUpdate_lookup_same]
        simp [hneu]
      · rw [applyUpdate_lookup_ne cm u cls hc]
        have : (if u.cls = cls then u.ids else []) = [] := by
          rw [if_neg (fun hEq => hc hEq.symm)]
        rw [this, List.append_nil]
        exact ihsome cls
    · intro cls im h
      rw [streamFor_append, streamFor_single]
      by_cases hc : cls = u.cls
      · subst hc
        rw [applyUpdate_lookup_same] at h
        rw [if_pos rfl]
        cases hlk : cm.lookup u.cls with
        | some im0 =>
          rw [hlk] at h
          simp only [Option.getD_some, Option.some.injEq] at h
          subst h
          rw [innerfold_keys, ihkeys u.cls im0 hlk, dedupFirst_append]
        | none =>
          rw [hlk] at h
          simp only [Option.getD_none, Option.some.injEq] at h
          subst h
          have hstream : streamFor u.cls ups = [] := by
            by_contra hcon
            exact (by simp [hlk] : ¬(cm.lookup u.cls).isSome) ((ihsome u.cls).2 hcon)
          rw [innerfold_keys, hstream, List.nil_append]
          rfl
      · rw [applyUpdate_lookup_ne cm u cls hc] at h
        have hnil : (if u.cls = cls then u.ids else []) = [] := by
          rw [if_neg (fun hEq => hc hEq.symm)]
        rw [hnil, List.append_nil]
        exact ihkeys cls im h

/-! ## Phase decomposition of `populate`'s collection loops -/

theorem getField_flushRefN_ne (key key2 : String) (d : PDoc) (hne : key ≠ key2) :
    (flushRefN key2 d).getField key = d.getField key := by
  unfold flushRefN
  cases hf : d.getField key2 with
  | varr elems =>
    by_cases he : elems.isEmpty
    · show (if elems.isEmpty then d
          else d.setField key2 (.varr [])).getField key = d.getField key
      rw [if_pos he]
    · show (if elems.isEmpty then d
          else d.setField key2 (.varr [])).getField key = d.getField key
      rw [if_neg he]
      exact PDoc.getField_setField_ne d key2 key _ hne
  | vid s => rfl
  | vdoc r => rfl
  | vnull => rfl
  | vundef => rfl

theorem flushMany_cons (k : String) (ks : List String) (d : PDoc) :
    flushMany (k :: ks) d = flushMany ks (flushRefN k d) := rfl

theorem getField_flushMany_notmem (ks : List String) (key : String) (d : PDoc)
    (h : key ∉ ks) : (flushMany ks d).getField key = d.getField key := by
  induction ks generalizing d with
  | nil => rfl
  | cons k rest ih =>
    rw [flushMany_cons, ih _ (fun hmem => h (List.mem_cons_of_mem _ hmem)),
      getField_flushRefN_ne key k d (fun hEq => h (hEq ▸ List.mem_cons_self _ _))]

theorem refNUpdates_map_invariant (key cls : String) (i : Nat) (ds : List PDoc)
    (g : PDoc → PDoc) (hg : ∀ d, (g d).getField key = d.getField key) :
    refNUpdates key cls i (ds.map g) = refNUpdates key cls i ds := by
  induction ds generalizing i with
  | nil => rfl
  | cons d rest ih =>
    rw [List.map_cons]
    simp only [refNUpdates]
    rw [hg d, ih (i + 1)]

theorem ref1Updates_map_invariant (key cls : String) (i : Nat) (ds : List PDoc)
    (g : PDoc → PDoc) (hg : ∀ d, (g d).getField key = d.getField key) :
    ref1Updates key cls i (ds.map g) = ref1Updates key cls i ds := by
  induction ds generalizing i with
  | nil => rfl
  | cons d rest ih =>
    rw [List.map_cons]
    simp only [ref1Updates]
    rw [hg d, ih (i + 1)]

theorem popRefNDocs_eq (key cls : String) (ds : List PDoc) (i : Nat) (m : ClassMap) :
    popRefNDocs key cls ds i m
      = (ds.map (flushRefN key), (refNUpdates key cls i ds).foldl applyUpdate m) := by
  induction ds generalizing i m with
  | nil => rfl
  | cons d rest ih =>
    simp only [popRefNDocs, refNUpdates, List.map_cons, flushRefN]
    cases hf : d.getField key with
    | varr elems =>
      dsimp only
      by_cases he : elems.isEmpty
      · rw [if_pos he, if_pos he, if_pos he, ih (i + 1) m]
      · have happ : applyUpdate m ⟨cls, elems.map elemKey, (i, key), true⟩
            = updateClass m cls
                (fun im =>
                  elems.foldl (fun im e => addRefNSlot im (elemKey e) (i, key)) im) := by
          simp [applyUpdate, List.foldl_map]
        rw [if_neg he, if_neg he, if_neg he, ih (i + 1), List.foldl_cons, happ]
    | vid s => exact congrArg (fun p => (d :: p.1, p.2)) (ih (i + 1) m)
    | vdoc r => exact congrArg (fun p => (d :: p.1, p.2)) (ih (i + 1) m)
    | vnull => exact congrArg (fun p => (d :: p.1, p.2)) (ih (i + 1) m)
    | vundef => exact congrArg (fun p => (d :: p.1, p.2)) (ih (i + 1) m)

theorem popRef1Docs_eq (key cls : String) (ds : List PDoc) (i : Nat) (m : ClassMap) :
    popRef1Docs key cls ds i m = (ref1Updates key cls i ds).foldl applyUpdate m := by
  induction ds generalizing i m with
  | nil => rfl
  | cons d rest ih =>
    simp only [popRef1Docs, ref1Updates]
    cases hf : d.getField key with
    | vid s =>
      have happ : applyUpdate m ⟨cls, [s], (i, key), false⟩
          = updateClass m cls (fun im => addRef1Slot im s (i, key)) := by
        simp [applyUpdate]
      dsimp only
      rw [ih (i + 1), List.foldl_cons, happ]
    | varr elems => exact ih (i + 1) m
    | vdoc r => exact ih (i + 1) m
    | vnull => exact ih (i + 1) m
    | vundef => exact ih (i + 1) m

theorem flatMapCongr {α β : Type} (l : List α) (f g : α → List β)
    (h : ∀ x ∈ l, f x = g x) : l.flatMap f = l.flatMap g := by
  induction l with
  | nil => rfl
  | cons a rest ih =>
    rw [List.flatMap_cons, List.flatMap_cons, h a (List.mem_cons_self a rest),
      ih (fun x hx => h x (List.mem_cons_of_mem _ hx))]

theorem mem_keptKeys_fst (fields : Option (List String))
    (kcs : List (String × String)) (x : String)
    (h : x ∈ (keptKeys fields kcs).map Prod.fst) : x ∈ kcs.map Prod.fst := by
  obtain ⟨kc, hkc, rfl⟩ := List.mem_map.1 h
  exact List.mem_map.2 ⟨kc, List.mem_of_mem_filter hkc, rfl⟩

theorem refNPhase_char (fields : Option (List String)) (kcs : List (String × String))
    (docs : List PDoc) (m : ClassMap) (hnd : (kcs.map Prod.fst).Nodup) :
    kcs.foldl
        (fun st kc =>
          if skipKey fields kc.1 then st else popRefNDocs kc.1 kc.2 st.1 0 st.2)
        (docs, m)
      = (docs.map (flushMany ((keptKeys fields kcs).map Prod.fst)),
         ((keptKeys fields kcs).flatMap (fun kc => refNUpdates kc.1 kc.2 0 docs)).foldl
           applyUpdate m) := by
  induction kcs generalizing docs m with
  | nil =>
    show (docs, m) = (docs.map (flushMany []), m)
    exact congrArg (fun l => (l, m)) (List.map_id docs).symm
  | cons kc rest ih =>
    rw [List.map_cons, List.nodup_cons] at hnd
    obtain ⟨hhead, hndr⟩ := hnd
    by_cases hskip : skipKey fields kc.1
    · rw [List.foldl_cons]
      dsimp only
      rw [if_pos hskip, ih docs m hndr]
      have hk : keptKeys fields (kc :: rest) = keptKeys fields rest := by
        simp [keptKeys, List.filter_cons, hskip]
      rw [hk]
    · rw [List.foldl_cons]
      dsimp only
      rw [if_neg hskip, popRefNDocs_eq,
        ih (docs.map (flushRefN kc.1)) ((refNUpdates kc.1 kc.2 0 docs).foldl applyUpdate m)
          hndr]
      have hk : keptKeys fields (kc :: rest) = kc :: keptKeys fields rest := by
        simp [keptKeys, List.filter_cons, hskip]
      rw [hk]
      have hfst : (docs.map (flushRefN kc.1)).map
            (flushMany ((keptKeys fields rest).map Prod.fst))
          = docs.map (flushMany ((kc :: keptKeys fields rest).map Prod.fst)) := by
        rw [List.map_map]
        apply List.map_congr_left
        intro d _
        rfl
      have hupd : (keptKeys fields rest).flatMap
            (fun kc2 => refNUpdates kc2.1 kc2.2 0 (docs.map (flushRefN kc.1)))
          = (keptKeys fields rest).flatMap (fun kc2 => refNUpdates kc2.1 kc2.2 0 docs) := by
        apply flatMapCongr
        intro kc2 hkc2
        apply refNUpdates_map_invariant
        intro d
        apply getField_flushRefN_ne
        intro hEq
        exact hhead (hEq ▸ mem_keptKeys_fst fields rest kc2.1
          (List.mem_map.2 ⟨kc2, hkc2, rfl⟩))
      rw [hfst, hupd, List.flatMap_cons, List.foldl_append]

theorem ref1Phase_char (fields : Option (List String)) (kcs : List (String × String))
    (docs : List PDoc) (m : ClassMap) :
    kcs.foldl
        (fun m kc => if skipKey fields kc.1 then m else popRef1Docs kc.1 kc.2 docs 0 m)
        m
      = ((keptKeys fields kcs).flatMap (fun kc => ref1Updates kc.1 kc.2 0 docs)).foldl
          applyUpdate m := by
  induction kcs generalizing m with
  | nil => rfl
  | cons kc rest ih =>
    by_cases hskip : skipKey fields kc.1
    · rw [List.foldl_cons]
      rw [if_pos hskip, ih m]
      have hk : keptKeys fields (kc :: rest) = keptKeys fields rest := by
        simp [keptKeys, List.filter_cons, hskip]
      rw [hk]
    · rw [List.foldl_cons]
      rw [if_neg hskip, popRef1Docs_eq, ih]
      have hk : keptKeys fields (kc :: rest) = kc :: keptKeys fields rest := by
        simp [keptKeys, List.filter_cons, hskip]
      rw [hk, List.flatMap_cons, List.foldl_append]

/-- Phases 1+2 of `populate`, decomposed: the documents come back with every
kept refN key flushed, and the class map is the fold of all elementary
updates, evaluated over the pre-populate documents. -/
theorem buildPopMap_char (refNKeys ref1Keys : List (String × String))
    (fields : Option (List String)) (docs : List PDoc)
    (hkeys : ((refNKeys.map Prod.fst) ++ (ref1Keys.map Prod.fst)).Nodup) :
    buildPopMap refNKeys ref1Keys fields docs
      = (docs.map (flushMany ((keptKeys fields refNKeys).map Prod.fst)),
         (allUpdates refNKeys ref1Keys fields docs).foldl applyUpdate []) := by
  rw [List.nodup_append] at hkeys
  obtain ⟨hndN, hnd1, hdisj⟩ := hkeys
  unfold buildPopMap
  dsimp only
  rw [refNPhase_char fields refNKeys docs [] hndN]
  dsimp only
  rw [ref1Phase_char]
  have hupd : (keptKeys fields ref1Keys).flatMap
        (fun kc => ref1Updates kc.1 kc.2 0
          (docs.map (flushMany ((keptKeys fields refNKeys).map Prod.fst))))
      = (keptKeys fields ref1Keys).flatMap
          (fun kc => ref1Updates kc.1 kc.2 0 docs) := by
    apply flatMapCongr
    intro kc hkc
    apply ref1Updates_map_invariant
    intro d
    apply getField_flushMany_notmem
    intro hmem
    exact hdisj (mem_keptKeys_fst fields refNKeys kc.1 hmem)
      (List.mem_map.2 ⟨kc, List.mem_of_mem_filter hkc, rfl⟩)
  rw [hupd]
  unfold allUpdates
  rw [List.foldl_append]

theorem refNUpdates_ids_ne (key cls : String) (i : Nat) (ds : List PDoc) :
    ∀ u ∈ refNUpdates key cls i ds, u.ids ≠ [] := by
  induction ds generalizing i with
  | nil =>
    intro u hu
    cases hu
  | cons d rest ih =>
    intro u hu
    simp only [refNUpdates] at hu
    revert hu
    cases hf : d.getField key with
    | varr elems =>
      dsimp only
      by_cases he : elems.isEmpty
      · rw [if_pos he]
        exact ih (i + 1) u
      · rw [if_neg he]
        intro hu
        rcases List.mem_cons.1 hu with h | h
        · subst h
          dsimp only
          intro hnil
          rw [List.map_eq_nil_iff.mp hnil] at he
          exact he rfl
        · exact ih (i + 1) u h
    | vid s => exact ih (i + 1) u
    | vdoc r => exact ih (i + 1) u
    | vnull => exact ih (i + 1) u
    | vundef => exact ih (i + 1) u

theorem ref1Updates_ids_ne (key cls : String) (i : Nat) (ds : List PDoc) :
    ∀ u ∈ ref1Updates key cls i ds, u.ids ≠ [] := by
  induction ds generalizing i with
  | nil =>
    intro u hu
    cases hu
  | cons d rest ih =>
    intro u hu
    simp only [ref1Updates] at hu
    revert hu
    cases hf : d.getField key with
    | vid s =>
      dsimp only
      intro hu
      rcases List.mem_cons.1 hu with h | h
      · subst h
        exact List.cons_ne_nil _ _
      · exact ih (i + 1) u h
    | varr elems => exact ih (i + 1) u
    | vdoc r => exact ih (i + 1) u
    | vnull => exact ih (i + 1) u
    | vundef => exact ih (i + 1) u

theorem allUpdates_ids_ne (refNKeys ref1Keys : List (String × String))
    (fields : Option (List String)) (docs : List PDoc) :
    ∀ u ∈ allUpdates refNKeys ref1Keys fields docs, u.ids ≠ [] := by
  intro u hu
  unfold allUpdates at hu
  rcases List.mem_append.1 hu with h | h
  · obtain ⟨kc, _, hmem⟩ := List.mem_flatMap.1 h
    exact refNUpdates_ids_ne kc.1 kc.2 0 docs u hmem
  · obtain ⟨kc, _, hmem⟩ := List.mem_flatMap.1 h
    exact ref1Updates_ids_ne kc.1 kc.2 0 docs u hmem

theorem populateModel_queries (refNKeys ref1Keys : List (String × String))
    (fields : Option (List String)) (storageFind : String → List String → List Rec)
    (docs : List PDoc)
    (hkeys : ((refNKeys.map Prod.fst) ++ (ref1Keys.map Prod.fst)).Nodup) :
    (populateModel refNKeys ref1Keys fields storageFind docs).2
      = queriesOf ((allUpdates refNKeys ref1Keys fields docs).foldl applyUpdate []) := by
  unfold populateModel
  rw [buildPopMap_char refNKeys ref1Keys fields docs hkeys]

/-- Claim C1: for every collection of documents passed to `populate` and
every assignment of reference keys to target classes (key names pairwise
distinct, as schema keys are), every storage `find` issued by `populate` has
population disabled, no two issued queries target the same class, a class is
queried exactly when at least one pending id was collected for it through
the kept reference fields, and each query asks exactly for the collected
ids of its class (deduplicated keeping first occurrences) — one query per
referenced class, one level of depth. -/
theorem populate_one_query_per_class_c1
    (refNKeys ref1Keys : List (String × String)) (fields : Option (List String))
    (storageFind : String → List String → List Rec) (docs : List PDoc)
    (hkeys : ((refNKeys.map Prod.fst) ++ (ref1Keys.map Prod.fst)).Nodup) :
    (∀ q ∈ (populateModel refNKeys ref1Keys fields storageFind docs).2,
        q.populateFlag = false)
  ∧ (((populateModel refNKeys ref1Keys fields storageFind docs).2.map Query.cls).Nodup)
  ∧ (∀ cls, (∃ q ∈ (populateModel refNKeys ref1Keys fields storageFind docs).2,
        q.cls = cls)
      ↔ streamFor cls (allUpdates refNKeys ref1Keys fields docs) ≠ [])
  ∧ (∀ q ∈ (populateModel refNKeys ref1Keys fields storageFind docs).2,
        q.ids = dedupFirst (streamFor q.cls (allUpdates refNKeys ref1Keys fields docs))) := by
  have hq := populateModel_queries refNKeys ref1Keys fields storageFind docs hkeys
  obtain ⟨hnd, hsome, hkeysOf⟩ :=
    foldl_applyUpdate_char (allUpdates refNKeys ref1Keys fields docs)
      (allUpdates_ids_ne refNKeys ref1Keys fields docs)
  rw [hq]
  refine ⟨?_, ?_, ?_, ?_⟩
  · intro q hq2
    obtain ⟨e, _, rfl⟩ := List.mem_map.1 hq2
    rfl
  · have hmap : (queriesOf ((allUpdates refNKeys ref1Keys fields docs).foldl
          applyUpdate [])).map Query.cls
        = ((allUpdates refNKeys ref1Keys fields docs).foldl applyUpdate []).map
            Prod.fst := by
      unfold queriesOf
      rw [List.map_map]
      rfl
    rw [hmap]
    exact hnd
  · intro cls
    constructor
    · rintro ⟨q, hq2, rfl⟩
      obtain ⟨e, hmem, rfl⟩ := List.mem_map.1 hq2
      exact (hsome e.1).1
        ((lookup_isSome_iff_mem_keys _ e.1).2 (List.mem_map.2 ⟨e, hmem, rfl⟩))
    · intro hstream
      have hsm := (hsome cls).2 hstream
      obtain ⟨im, him⟩ := Option.isSome_iff_exists.1 hsm
      have hmemk : cls ∈ ((allUpdates refNKeys ref1Keys fields docs).foldl
          applyUpdate []).map Prod.fst :=
        (lookup_isSome_iff_mem_keys _ cls).1 hsm
      obtain ⟨e, hmem, he1⟩ := List.mem_map.1 hmemk
      exact ⟨⟨e.1, e.2.map Prod.fst, false⟩, List.mem_map.2 ⟨e, hmem, rfl⟩, he1⟩
  · intro q hq2
    obtain ⟨e, hmem, rfl⟩ := List.mem_map.1 hq2
    have hlk : ((allUpdates refNKeys ref1Keys fields docs).foldl applyUpdate []).lookup
          e.1 = some e.2 :=
      lookup_of_mem_nodup _ e hmem hnd
    exact hkeysOf e.1 e.2 hlk

/-! ## Back-fill characterization (claim C2) -/

theorem updateDocAt_getElem_same (ds : List PDoc) (i : Nat) (f : PDoc → PDoc) :
    (updateDocAt ds i f)[i]? = ds[i]?.map f := by
  unfold updateDocAt
  cases h : ds[i]? with
  | none =>
    rw [h]
    rfl
  | some d =>
    obtain ⟨hlt, _⟩ := List.getElem?_eq_some.1 h
    rw [List.getElem?_set_self hlt]
    rfl

theorem updateDocAt_getElem_ne (ds : List PDoc) (i j : Nat) (f : PDoc → PDoc)
    (hne : i ≠ j) : (updateDocAt ds i f)[j]? = ds[j]? := by
  unfold updateDocAt
  cases h : ds[i]? with
  | none => rfl
  | some d => exact List.getElem?_set_ne hne

theorem foldl_addRefNSlot_lookup (slot : Nat × String) (ids : List String)
    (m : IdMap) (id : String) :
    (ids.foldl (fun m x => addRefNSlot m x slot) m).lookup id
      = match m.lookup id with
        | some t => some ⟨t.ref1Slots, t.refNSlots ++ List.replicate (ids.count id) slot⟩
        | none =>
          if ids.count id = 0 then none
          else some ⟨[], List.replicate (ids.count id) slot⟩ := by
  induction ids generalizing m with
  | nil =>
    cases hm : m.lookup id with
    | none =>
      simp only [List.foldl_nil]
      rw [hm]
      simp
    | some t =>
      simp only [List.foldl_nil]
      rw [hm]
      simp
  | cons a rest ih =>
    rw [List.foldl_cons, ih (addRefNSlot m a slot)]
    by_cases ha : a = id
    · subst ha
      have hcnt : (a :: rest).count a = rest.count a + 1 := by
        rw [List.count_cons]
        simp
      rw [addRefNSlot_lookup_same, hcnt]
      cases hm : m.lookup a with
      | some t =>
        dsimp only
        rw [List.append_assoc, List.singleton_append, ← List.replicate_succ]
      | none =>
        dsimp only
        rw [if_neg (Nat.succ_ne_zero _), List.singleton_append, ← List.replicate_succ]
    · have hb : ((a : String) == id) = false := beq_eq_false_iff_ne.2 ha
      have hcnt : (a :: rest).count id = rest.count id := by
        rw [List.count_cons, hb]
        simp
      rw [addRefNSlot_lookup_ne m a id slot (fun h => ha h.symm), hcnt]

theorem refNSlotsFor_append (id : String) (ups : List UpdateEv) (u : UpdateEv) :
    refNSlotsFor id (ups ++ [u])
      = refNSlotsFor id ups ++ List.replicate (u.ids.count id) u.slot := by
  unfold refNSlotsFor
  rw [List.flatMap_append]
  simp

theorem innerApply_refN (im : IdMap) (u : UpdateEv) (hu : u.isRefN = true) :
    innerApply im u = u.ids.foldl (fun m x => addRefNSlot m x u.slot) im := by
  simp [innerApply, hu]

/-- Characterization of a class's id map built from refN updates only: an
id has an entry exactly when it accumulated slots, the entry has no ref1
slots, and its refN slots are the accumulated slots in accumulation order
(one per occurrence of the id, update by update). -/
theorem foldl_innerApply_refN_lookup (ups : List UpdateEv)
    (hrefN : ∀ u ∈ ups, u.isRefN = true) (id : String) :
    (ups.foldl innerApply []).lookup id
      = if refNSlotsFor id ups = [] then none
        else some ⟨[], refNSlotsFor id ups⟩ := by
  induction ups using List.reverseRecOn with
  | nil => simp [refNSlotsFor, List.lookup]
  | append_singleton ups u ih =>
    have hrefN1 : ∀ w ∈ ups, w.isRefN = true := fun w hw =>
      hrefN w (List.mem_append.2 (Or.inl hw))
    have hu : u.isRefN = true :=
      hrefN u (List.mem_append.2 (Or.inr (List.mem_singleton.2 rfl)))
    rw [List.foldl_append, List.foldl_cons, List.foldl_nil,
      innerApply_refN _ u hu, foldl_addRefNSlot_lookup, ih hrefN1,
      refNSlotsFor_append]
    by_cases hS : refNSlotsFor id ups = []
    · rw [if_pos hS, hS, List.nil_append]
      dsimp only
      by_cases hcnt : u.ids.count id = 0
      · rw [if_pos hcnt, if_pos (by rw [hcnt]; rfl)]
      · rw [if_neg hcnt,
          if_neg (fun h => hcnt ((List.replicate_eq_nil_iff u.slot).1 h))]
    · rw [if_neg hS]
      dsimp only
      rw [if_neg (List.append_ne_nil_of_left_ne_nil hS _)]

theorem applyUpdate_innerApply (cm : ClassMap) (u : UpdateEv) :
    applyUpdate cm u = updateClass cm u.cls (fun im => innerApply im u) := rfl

/-- When every update targets the same class, the class-map fold degenerates
to a single entry holding the inner fold. -/
theorem foldl_applyUpdate_single_class (cls : String) (ups : List UpdateEv)
    (hcls : ∀ u ∈ ups, u.cls = cls) :
    ups.foldl applyUpdate []
      = if ups.isEmpty then [] else [(cls, ups.foldl innerApply [])] := by
  induction ups using List.reverseRecOn with
  | nil => rfl
  | append_singleton ups u ih =>
    have hcls1 : ∀ w ∈ ups, w.cls = cls := fun w hw =>
      hcls w (List.mem_append.2 (Or.inl hw))
    have hu : u.cls = cls :=
      hcls u (List.mem_append.2 (Or.inr (List.mem_singleton.2 rfl)))
    rw [List.foldl_append, List.foldl_cons, List.foldl_nil, ih hcls1,
      applyUpdate_innerApply, hu]
    by_cases hE : ups.isEmpty
    · obtain rfl : ups = [] := List.isEmpty_iff.1 hE
      simp [updateClass, List.lookup]
    · have hne2 : (ups ++ [u]).isEmpty ≠ true := by
        intro h
        exact List.ne_nil_of_mem
          (List.mem_append.2 (Or.inr (List.mem_singleton.2 rfl)))
          (List.isEmpty_iff.1 h)
      rw [if_neg hE, if_neg hne2]
      unfold updateClass
      rw [if_pos (by simp [List.lookup])]
      rw [List.foldl_append, List.foldl_cons, List.foldl_nil]
      simp

theorem refNUpdates_mem_shape (key cls : String) (i : Nat) (ds : List PDoc) :
    ∀ u ∈ refNUpdates key cls i ds,
      u.cls = cls ∧ u.isRefN = true ∧ u.slot.2 = key ∧ i ≤ u.slot.1 := by
  induction ds generalizing i with
  | nil =>
    intro u hu
    cases hu
  | cons d rest ih =>
    intro u hu
    simp only [refNUpdates] at hu
    revert hu
    cases hf : d.getField key with
    | varr elems =>
      dsimp only
      by_cases he : elems.isEmpty
      · rw [if_pos he]
        intro hu
        obtain ⟨h1, h2, h3, h4⟩ := ih (i + 1) u hu
        exact ⟨h1, h2, h3, Nat.le_of_succ_le h4⟩
      · rw [if_neg he]
        intro hu
        rcases List.mem_cons.1 hu with h | h
        · subst h
          exact ⟨rfl, rfl, rfl, Nat.le_refl i⟩
        · obtain ⟨h1, h2, h3, h4⟩ := ih (i + 1) u h
          exact ⟨h1, h2, h3, Nat.le_of_succ_le h4⟩
    | vid s =>
      intro hu
      obtain ⟨h1, h2, h3, h4⟩ := ih (i + 1) u hu
      exact ⟨h1, h2, h3, Nat.le_of_succ_le h4⟩
    | vdoc r =>
      intro hu
      obtain ⟨h1, h2, h3, h4⟩ := ih (i + 1) u hu
      exact ⟨h1, h2, h3, Nat.le_of_succ_le h4⟩
    | vnull =>
      intro hu
      obtain ⟨h1, h2, h3, h4⟩ := ih (i + 1) u hu
      exact ⟨h1, h2, h3, Nat.le_of_succ_le h4⟩
    | vundef =>
      intro hu
      obtain ⟨h1, h2, h3, h4⟩ := ih (i + 1) u hu
      exact ⟨h1, h2, h3, Nat.le_of_succ_le h4⟩

theorem refNUpdates_mem_of_doc (key cls : String) (ds : List PDoc) (i j : Nat)
    (d : PDoc) (elems : List FieldVal) (hj : ds[j]? = some d)
    (hf : d.getField key = FieldVal.varr elems) (hne : elems.isEmpty = false) :
    (⟨cls, elems.map elemKey, (i + j, key), true⟩ : UpdateEv)
      ∈ refNUpdates key cls i ds := by
  induction ds generalizing i j with
  | nil => cases hj
  | cons d0 rest ih =>
    cases j with
    | zero =>
      rw [List.getElem?_cons_zero] at hj
      injection hj with h
      subst h
      rw [Nat.add_zero]
      simp only [refNUpdates]
      rw [hf]
      dsimp only
      rw [hne, if_neg Bool.false_ne_true]
      exact List.mem_cons_self _ _
    | succ j2 =>
      rw [List.getElem?_cons_succ] at hj
      have hidx : i + (j2 + 1) = (i + 1) + j2 := by omega
      rw [hidx]
      simp only [refNUpdates]
      cases hf0 : d0.getField key with
      | varr elems0 =>
        dsimp only
        by_cases he0 : elems0.isEmpty
        · rw [if_pos he0]
          exact ih (i + 1) j2 hj
        · rw [if_neg he0]
          exact List.mem_cons_of_mem _ (ih (i + 1) j2 hj)
      | vid s => exact ih (i + 1) j2 hj
      | vdoc r => exact ih (i + 1) j2 hj
      | vnull => exact ih (i + 1) j2 hj
      | vundef => exact ih (i + 1) j2 hj

theorem refNSlotsFor_cons (id : String) (u : UpdateEv) (ups : List UpdateEv) :
    refNSlotsFor id (u :: ups)
      = List.replicate (u.ids.count id) u.slot ++ refNSlotsFor id ups := by
  simp [refNSlotsFor]

theorem mem_refNSlotsFor (id : String) (ups : List UpdateEv) (s : Nat × String)
    (hs : s ∈ refNSlotsFor id ups) : ∃ u ∈ ups, s = u.slot := by
  unfold refNSlotsFor at hs
  obtain ⟨u, hu, hsrep⟩ := List.mem_flatMap.1 hs
  exact ⟨u, hu, List.eq_of_mem_replicate hsrep⟩

/-- The slots accumulated for a pending id at a document index: exactly the
occurrence count of the id in that document's own reference list (the refN
loop registers the slot once per array element). -/
theorem count_refNSlotsFor (key cls id : String) (ds : List PDoc) (i j : Nat)
    (d : PDoc) (elems : List FieldVal) (hj : ds[j]? = some d)
    (hf : d.getField key = FieldVal.varr elems) (hne : elems.isEmpty = false) :
    (refNSlotsFor id (refNUpdates key cls i ds)).count (i + j, key)
      = (elems.map elemKey).count id := by
  induction ds generalizing i j with
  | nil => cases hj
  | cons d0 rest ih =>
    cases j with
    | zero =>
      rw [List.getElem?_cons_zero] at hj
      injection hj with h
      subst h
      rw [Nat.add_zero]
      simp only [refNUpdates]
      rw [hf]
      dsimp only
      rw [hne, if_neg Bool.false_ne_true, refNSlotsFor_cons, List.count_append]
      have hzero :
          (refNSlotsFor id (refNUpdates key cls (i + 1) rest)).count (i, key) = 0 := by
        rw [List.count_eq_zero]
        intro hmem
        obtain ⟨u, hu, hs⟩ := mem_refNSlotsFor id _ _ hmem
        obtain ⟨-, -, -, h4⟩ := refNUpdates_mem_shape key cls (i + 1) rest u hu
        have hfst : i = u.slot.1 := congrArg Prod.fst hs
        omega
      rw [hzero, List.count_replicate]
      simp
    | succ j2 =>
      rw [List.getElem?_cons_succ] at hj
      have hidx : i + (j2 + 1) = (i + 1) + j2 := by omega
      rw [hidx]
      simp only [refNUpdates]
      cases hf0 : d0.getField key with
      | varr elems0 =>
        dsimp only
        by_cases he0 : elems0.isEmpty
        · rw [if_pos he0]
          exact ih (i + 1) j2 hj
        · rw [if_neg he0, refNSlotsFor_cons, List.count_append, List.count_replicate]
          have hb : ((((i, key)) : Nat × String) == (i + 1 + j2, key)) = false := by
            apply beq_eq_false_iff_ne.2
            intro hEq
            have hfst : i = i + 1 + j2 := congrArg Prod.fst hEq
            omega
          rw [hb, if_neg Bool.false_ne_true, Nat.zero_add]
          exact ih (i + 1) j2 hj
      | vid s => exact ih (i + 1) j2 hj
      | vdoc r => exact ih (i + 1) j2 hj
      | vnull => exact ih (i + 1) j2 hj
      | vundef => exact ih (i + 1) j2 hj

/-- The ids collected by the refN loop for its class are the concatenation
of each document's own reference list, in document order. -/
theorem streamFor_refNUpdates (key cls : String) (i : Nat) (ds : List PDoc) :
    streamFor cls (refNUpdates key cls i ds) = ds.flatMap (refNIdsOf key) := by
  induction ds generalizing i with
  | nil => rfl
  | cons d rest ih =>
    rw [List.flatMap_cons]
    simp only [refNUpdates]
    cases hf : d.getField key with
    | varr elems =>
      have hhead : refNIdsOf key d
          = if elems.isEmpty then [] else elems.map elemKey := by
        unfold refNIdsOf
        rw [hf]
      rw [hhead]
      dsimp only
      by_cases he : elems.isEmpty
      · rw [if_pos he, if_pos he, ih (i + 1), List.nil_append]
      · rw [if_neg he, if_neg he,
          show (⟨cls, elems.map elemKey, (i, key), true⟩ : UpdateEv)
              :: refNUpdates key cls (i + 1) rest
            = [⟨cls, elems.map elemKey, (i, key), true⟩]
              ++ refNUpdates key cls (i + 1) rest from rfl,
          streamFor_append, streamFor_single]
        dsimp only
        rw [if_pos rfl, ih (i + 1)]
    | vid s =>
      have hhead : refNIdsOf key d = [] := by
        unfold refNIdsOf
        rw [hf]
      rw [hhead, ih (i + 1), List.nil_append]
    | vdoc r =>
      have hhead : refNIdsOf key d = [] := by
        unfold refNIdsOf
        rw [hf]
      rw [hhead, ih (i + 1), List.nil_append]
    | vnull =>
      have hhead : refNIdsOf key d = [] := by
        unfold refNIdsOf
        rw [hf]
      rw [hhead, ih (i + 1), List.nil_append]
    | vundef =>
      have hhead : refNIdsOf key d = [] := by
        unfold refNIdsOf
        rw [hf]
      rw [hhead, ih (i + 1), List.nil_append]

/-- Pushing a hydrated record onto every slot of a slot list (all slots on
the same key): a tracked document whose field holds an array gains one
appended element per slot aimed at it, in slot order. -/
theorem pushFold_getField (k : String) (r : Rec) (ss : List (Nat × String)) :
    ∀ (ds : List PDoc) (j : Nat) (d : PDoc) (l : List FieldVal),
      (∀ s ∈ ss, s.2 = k) → ds[j]? = some d → d.getField k = FieldVal.varr l →
      ∃ d2, (pushFold r ss ds)[j]? = some d2
        ∧ d2.getField k
            = FieldVal.varr
                (l ++ List.replicate (ss.count (j, k)) (FieldVal.vdoc r)) := by
  induction ss with
  | nil =>
    intro ds j d l _ hj hd
    exact ⟨d, hj, by rw [hd]; simp⟩
  | cons s rest ih =>
    intro ds j d l hss hj hd
    obtain ⟨s1, s2⟩ := s
    have hk : s2 = k := hss (s1, s2) (List.mem_cons_self _ _)
    subst hk
    simp only [pushFold, List.foldl_cons]
    by_cases hj1 : s1 = j
    · subst hj1
      have hds : (updateDocAt ds s1 (fun d =>
            match d.getField s2 with
            | FieldVal.varr l => d.setField s2 (FieldVal.varr (l ++ [FieldVal.vdoc r]))
            | _ => d))[s1]?
          = some (d.setField s2 (FieldVal.varr (l ++ [FieldVal.vdoc r]))) := by
        rw [updateDocAt_getElem_same, hj]
        dsimp only [Option.map]
        rw [hd]
      obtain ⟨d2, h1, h2⟩ := ih _ s1 _ (l ++ [FieldVal.vdoc r])
        (fun s hs => hss s (List.mem_cons_of_mem _ hs)) hds
        (PDoc.getField_setField_same d s2 _)
      refine ⟨d2, h1, ?_⟩
      rw [h2]
      have hcard : (((s1, s2) : Nat × String) :: rest).count (s1, s2)
          = rest.count (s1, s2) + 1 := by
        rw [List.count_cons]
        simp
      rw [hcard, List.append_assoc, List.singleton_append, ← List.replicate_succ]
    · have hds : (updateDocAt ds s1 (fun d =>
            match d.getField s2 with
            | FieldVal.varr l => d.setField s2 (FieldVal.varr (l ++ [FieldVal.vdoc r]))
            | _ => d))[j]? = some d := by
        rw [updateDocAt_getElem_ne ds s1 j _ hj1, hj]
      obtain ⟨d2, h1, h2⟩ := ih _ j _ l
        (fun s hs => hss s (List.mem_cons_of_mem _ hs)) hds hd
      refine ⟨d2, h1, ?_⟩
      rw [h2]
      have hcard : (((s1, s2) : Nat × String) :: rest).count (j, s2)
          = rest.count (j, s2) := by
        rw [List.count_cons]
        have hb : (((s1, s2) : Nat × String) == (j, s2)) = false := by
          apply beq_eq_false_iff_ne.2
          intro hEq
          exact hj1 (congrArg Prod.fst hEq)
        rw [hb]
        simp
      rw [hcard]

theorem backfillRecord_skip (im : IdMap) (ds : List PDoc) (r : Rec)
    (h : im.lookup r.rid = none) : backfillRecord im ds r = ds := by
  unfold backfillRecord
  rw [h]

theorem backfillRecord_push (im : IdMap) (ds : List PDoc) (r : Rec)
    (ss : List (Nat × String)) (h : im.lookup r.rid = some ⟨[], ss⟩) :
    backfillRecord im ds r = pushFold r ss ds := by
  unfold backfillRecord
  rw [h]
  rfl

/-- Back-filling a class's fetched records into the collection: a tracked
document whose field holds an array ends with one appended hydrated element
per slot per record, records in fetch order. -/
theorem backfillClass_getField (k : String) (im : IdMap) (ups : List UpdateEv)
    (hval : ∀ id, im.lookup id
        = if refNSlotsFor id ups = [] then none
          else some ⟨[], refNSlotsFor id ups⟩)
    (hslots : ∀ u ∈ ups, u.slot.2 = k) :
    ∀ (found : List Rec) (ds : List PDoc) (j : Nat) (d : PDoc) (acc : List FieldVal),
      ds[j]? = some d → d.getField k = FieldVal.varr acc →
      ∃ d2, (backfillClass im found ds)[j]? = some d2
        ∧ d2.getField k = FieldVal.varr (acc ++ found.flatMap
            (fun r => List.replicate ((refNSlotsFor r.rid ups).count (j, k))
              (FieldVal.vdoc r))) := by
  intro found
  induction found with
  | nil =>
    intro ds j d acc hj hd
    exact ⟨d, hj, by rw [hd]; simp⟩
  | cons r rest ih =>
    intro ds j d acc hj hd
    rw [show backfillClass im (r :: rest) ds
        = backfillClass im rest (backfillRecord im ds r) from rfl,
      List.flatMap_cons]
    by_cases hS : refNSlotsFor r.rid ups = []
    · rw [backfillRecord_skip im ds r (by rw [hval r.rid, if_pos hS])]
      obtain ⟨d2, h1, h2⟩ := ih ds j d acc hj hd
      refine ⟨d2, h1, ?_⟩
      rw [h2, hS]
      simp
    · rw [backfillRecord_push im ds r (refNSlotsFor r.rid ups)
        (by rw [hval r.rid, if_neg hS])]
      have hss : ∀ s ∈ refNSlotsFor r.rid ups, s.2 = k := by
        intro s hs
        obtain ⟨u, hu, hsu⟩ := mem_refNSlotsFor r.rid ups s hs
        rw [hsu]
        exact hslots u hu
      obtain ⟨d1, hj1, hd1⟩ :=
        pushFold_getField k r (refNSlotsFor r.rid ups) ds j d acc hss hj hd
      obtain ⟨d2, h1, h2⟩ := ih _ j d1 _ hj1 hd1
      refine ⟨d2, h1, ?_⟩
      rw [h2, List.append_assoc]

theorem count_add_length_filter (E : List String) (a : String) :
    E.count a + (E.filter (fun x => !(x == a))).length = E.length := by
  induction E with
  | nil => rfl
  | cons e E2 ih =>
    cases hb : ((e : String) == a) with
    | true =>
      simp [List.count_cons, List.filter_cons, hb]
      omega
    | false =>
      simp [List.count_cons, List.filter_cons, hb]
      omega

/-- Summing, over a duplicate-free list of ids covering a multiset, the
multiplicity of each id yields the multiset size. -/
theorem sum_count_eq_length (L : List String) :
    ∀ E : List String, L.Nodup → (∀ x ∈ E, x ∈ L) →
      (L.map (fun x => E.count x)).sum = E.length := by
  induction L with
  | nil =>
    intro E _ hsub
    cases E with
    | nil => rfl
    | cons e E2 => exact absurd (hsub e (List.mem_cons_self _ _)) (List.not_mem_nil e)
  | cons a L2 ih =>
    intro E hnd hsub
    rw [List.map_cons, List.sum_cons]
    rw [List.nodup_cons] at hnd
    obtain ⟨ha, hnd2⟩ := hnd
    have hmapeq : L2.map (fun x => E.count x)
        = L2.map (fun x => (E.filter (fun y => !(y == a))).count x) := by
      apply List.map_congr_left
      intro x hx
      have hxa : x ≠ a := fun hEq => ha (hEq ▸ hx)
      have hpx : (!((x : String) == a)) = true := by
        rw [beq_eq_false_iff_ne.2 hxa]
        rfl
      exact (@List.count_filter String _ _ (fun y => !(y == a)) x E hpx).symm
    have hsub2 : ∀ x ∈ E.filter (fun y => !(y == a)), x ∈ L2 := by
      intro x hx
      have hxE := List.mem_of_mem_filter hx
      have hp := List.of_mem_filter hx
      have hxa : x ≠ a := by
        intro hEq
        rw [hEq] at hp
        simp at hp
      rcases List.mem_cons.1 (hsub x hxE) with h | h
      · exact absurd h hxa
      · exact h
    rw [hmapeq, ih (E.filter (fun y => !(y == a))) hnd2 hsub2]
    exact count_add_length_filter E a

/-- Claim C2 (amended): after populating a single array-of-reference key,
a document whose field held a non-empty id list ends with its array rebuilt
in FETCH order - the flat concatenation, over the records storage returned
and in that order, of one hydrated element per occurrence of the record's
id in the document's original list (duplicates preserved).  When storage
returns each queried id exactly once and covers every id of the document's
list, the rebuilt array has exactly one element per original id. -/
theorem populate_refN_backfill_c2
    (k cls : String) (storageFind : String → List String → List Rec)
    (docs : List PDoc) (j : Nat) (d : PDoc) (elems : List FieldVal)
    (hj : docs[j]? = some d) (hf : d.getField k = FieldVal.varr elems)
    (hne : elems.isEmpty = false) :
    ∃ d2,
      (populateModel [(k, cls)] [] none storageFind docs).1[j]? = some d2
      ∧ d2.getField k = FieldVal.varr
          ((storageFind cls (dedupFirst (docs.flatMap (refNIdsOf k)))).flatMap
            (fun r => List.replicate ((elems.map elemKey).count r.rid)
              (FieldVal.vdoc r)))
      ∧ ((((storageFind cls (dedupFirst (docs.flatMap (refNIdsOf k)))).map
            Rec.rid).Nodup) →
         (∀ id ∈ elems.map elemKey,
            id ∈ (storageFind cls (dedupFirst (docs.flatMap (refNIdsOf k)))).map
              Rec.rid) →
         ((storageFind cls (dedupFirst (docs.flatMap (refNIdsOf k)))).flatMap
            (fun r => List.replicate ((elems.map elemKey).count r.rid)
              (FieldVal.vdoc r))).length = elems.length) := by
  have hshape := refNUpdates_mem_shape k cls 0 docs
  have hcls : ∀ u ∈ refNUpdates k cls 0 docs, u.cls = cls :=
    fun u hu => (hshape u hu).1
  have hrefN : ∀ u ∈ refNUpdates k cls 0 docs, u.isRefN = true :=
    fun u hu => (hshape u hu).2.1
  have hslots : ∀ u ∈ refNUpdates k cls 0 docs, u.slot.2 = k :=
    fun u hu => (hshape u hu).2.2.1
  have humem : (⟨cls, elems.map elemKey, (0 + j, k), true⟩ : UpdateEv)
      ∈ refNUpdates k cls 0 docs :=
    refNUpdates_mem_of_doc k cls docs 0 j d elems hj hf hne
  have hupsne : refNUpdates k cls 0 docs ≠ [] := List.ne_nil_of_mem humem
  have hcm : (refNUpdates k cls 0 docs).foldl applyUpdate []
      = [(cls, (refNUpdates k cls 0 docs).foldl innerApply [])] := by
    rw [foldl_applyUpdate_single_class cls _ hcls,
      if_neg (fun h => hupsne (List.isEmpty_iff.1 h))]
  have hIkeys : ((refNUpdates k cls 0 docs).foldl innerApply []).map Prod.fst
      = dedupFirst (docs.flatMap (refNIdsOf k)) := by
    have hchar := foldl_applyUpdate_char (refNUpdates k cls 0 docs)
      (refNUpdates_ids_ne k cls 0 docs)
    have hlkI : ((refNUpdates k cls 0 docs).foldl applyUpdate []).lookup cls
        = some ((refNUpdates k cls 0 docs).foldl innerApply []) := by
      rw [hcm]
      simp [List.lookup]
    rw [hchar.2.2 cls _ hlkI, streamFor_refNUpdates]
  have hallu : allUpdates [(k, cls)] [] none docs = refNUpdates k cls 0 docs := by
    unfold allUpdates
    simp [keptKeys, skipKey]
  have hbp : buildPopMap [(k, cls)] [] none docs
      = (docs.map (flushMany [k]),
         (refNUpdates k cls 0 docs).foldl applyUpdate []) := by
    rw [buildPopMap_char [(k, cls)] [] none docs (by simp), hallu]
    rfl
  have hpm : (populateModel [(k, cls)] [] none storageFind docs).1
      = backfillClass ((refNUpdates k cls 0 docs).foldl innerApply [])
          (storageFind cls (dedupFirst (docs.flatMap (refNIdsOf k))))
          (docs.map (flushMany [k])) := by
    unfold populateModel
    rw [hbp]
    dsimp only
    rw [hcm]
    dsimp only [List.foldl_cons, List.foldl_nil]
    rw [hIkeys]
  have hflush : (docs.map (flushMany [k]))[j]? = some (flushRefN k d) := by
    rw [List.getElem?_map, hj]
    rfl
  have hflushfield : (flushRefN k d).getField k = FieldVal.varr [] := by
    unfold flushRefN
    rw [hf]
    dsimp only
    rw [hne, if_neg Bool.false_ne_true]
    exact PDoc.getField_setField_same d k _
  have hval : ∀ id, (((refNUpdates k cls 0 docs).foldl innerApply []) : IdMap).lookup id
      = if refNSlotsFor id (refNUpdates k cls 0 docs) = [] then none
        else some ⟨[], refNSlotsFor id (refNUpdates k cls 0 docs)⟩ :=
    foldl_innerApply_refN_lookup _ hrefN
  obtain ⟨d2, h1, h2⟩ := backfillClass_getField k _ (refNUpdates k cls 0 docs)
    hval hslots
    (storageFind cls (dedupFirst (docs.flatMap (refNIdsOf k))))
    (docs.map (flushMany [k])) j (flushRefN k d) [] hflush hflushfield
  refine ⟨d2, ?_, ?_, ?_⟩
  · rw [hpm]
    exact h1
  · rw [h2, List.nil_append]
    congr 1
    apply flatMapCongr
    intro r _
    have hc := count_refNSlotsFor k cls r.rid docs 0 j d elems hj hf hne
    rw [Nat.zero_add] at hc
    rw [hc]
  · intro hndR hcover
    rw [List.length_flatMap]
    have hmap1 : List.map (List.length ∘ (fun r =>
          List.replicate ((elems.map elemKey).count r.rid) (FieldVal.vdoc r)))
          (storageFind cls (dedupFirst (docs.flatMap (refNIdsOf k))))
        = List.map (fun x => (elems.map elemKey).count x)
            ((storageFind cls (dedupFirst (docs.flatMap (refNIdsOf k)))).map
              Rec.rid) := by
      rw [List.map_map]
      apply List.map_congr_left
      intro r _
      simp
    rw [hmap1,
      sum_count_eq_length _ (elems.map elemKey) hndR hcover, List.length_map]

/-- Witness for C2 at a concrete populate call: a document referencing two
pets by id; storage returns both records sorted; the theorem applies with
every hypothesis discharged on the concrete input, and its conclusion
evaluates to the fetch-order hydrated array. -/
theorem populate_refN_backfill_c2_witness :
    (([(⟨[("pets", FieldVal.varr
          [FieldVal.vid "bbbbbbbbbbbbbbbb", FieldVal.vid "aaaaaaaaaaaaaaaa"])]⟩ :
        PDoc)] : List PDoc)[0]? = some
      ⟨[("pets", FieldVal.varr
          [FieldVal.vid "bbbbbbbbbbbbbbbb", FieldVal.vid "aaaaaaaaaaaaaaaa"])]⟩)
  ∧ ((⟨[("pets", FieldVal.varr
        [FieldVal.vid "bbbbbbbbbbbbbbbb", FieldVal.vid "aaaaaaaaaaaaaaaa"])]⟩ :
      PDoc).getField "pets" = FieldVal.varr
        [FieldVal.vid "bbbbbbbbbbbbbbbb", FieldVal.vid "aaaaaaaaaaaaaaaa"])
  ∧ (([FieldVal.vid "bbbbbbbbbbbbbbbb",
       FieldVal.vid "aaaaaaaaaaaaaaaa"] : List FieldVal).isEmpty = false)
  ∧ (∃ d2,
      (populateModel [("pets", "Pet")] [] none
        (fun _ _ => [⟨"Pet", "aaaaaaaaaaaaaaaa"⟩, ⟨"Pet", "bbbbbbbbbbbbbbbb"⟩])
        [⟨[("pets", FieldVal.varr
            [FieldVal.vid "bbbbbbbbbbbbbbbb",
             FieldVal.vid "aaaaaaaaaaaaaaaa"])]⟩]).1[0]? = some d2
      ∧ d2.getField "pets" = FieldVal.varr
          [FieldVal.vdoc ⟨"Pet", "aaaaaaaaaaaaaaaa"⟩,
           FieldVal.vdoc ⟨"Pet", "bbbbbbbbbbbbbbbb"⟩]) := by
  obtain ⟨d2, h1, h2, _⟩ := populate_refN_backfill_c2 "pets" "Pet"
    (fun _ _ => [⟨"Pet", "aaaaaaaaaaaaaaaa"⟩, ⟨"Pet", "bbbbbbbbbbbbbbbb"⟩])
    [⟨[("pets", FieldVal.varr
        [FieldVal.vid "bbbbbbbbbbbbbbbb", FieldVal.vid "aaaaaaaaaaaaaaaa"])]⟩]
    0
    ⟨[("pets", FieldVal.varr
        [FieldVal.vid "bbbbbbbbbbbbbbbb", FieldVal.vid "aaaaaaaaaaaaaaaa"])]⟩
    [FieldVal.vid "bbbbbbbbbbbbbbbb", FieldVal.vid "aaaaaaaaaaaaaaaa"]
    rfl rfl rfl
  refine ⟨rfl, rfl, rfl, d2, h1, ?_⟩
  rw [h2]
  rfl

/-- Counterexample to C2 as stated: a document listing pet ids
[b, a]; storage fetches the records sorted as [a, b]; the populated array
is [a, b] - fetch order - which differs from the original per-document
insertion order [b, a] that the claim requires. -/
theorem populate_fetch_order_c2_counterexample :
    ((populateModel [("pets", "Pet")] [] none
        (fun _ _ => [⟨"Pet", "aaaaaaaaaaaaaaaa"⟩, ⟨"Pet", "bbbbbbbbbbbbbbbb"⟩])
        [⟨[("pets", FieldVal.varr
            [FieldVal.vid "bbbbbbbbbbbbbbbb",
             FieldVal.vid "aaaaaaaaaaaaaaaa"])]⟩]).1.map
      (fun d => d.getField "pets"))
      = [FieldVal.varr [FieldVal.vdoc ⟨"Pet", "aaaaaaaaaaaaaaaa"⟩,
          FieldVal.vdoc ⟨"Pet", "bbbbbbbbbbbbbbbb"⟩]]
  ∧ [FieldVal.varr [FieldVal.vdoc ⟨"Pet", "aaaaaaaaaaaaaaaa"⟩,
        FieldVal.vdoc ⟨"Pet", "bbbbbbbbbbbbbbbb"⟩]]
      ≠ [FieldVal.varr [FieldVal.vdoc ⟨"Pet", "bbbbbbbbbbbbbbbb"⟩,
          FieldVal.vdoc ⟨"Pet", "aaaaaaaaaaaaaaaa"⟩]] := by
  refine ⟨rfl, ?_⟩
  intro h
  injection h with hhead _
  injection hhead with hl
  injection hl with h2 _
  injection h2 with h3
  injection h3 with _ h5
  exact absurd h5 (by decide)

/-- Witness for C1 at a concrete populate call: one refN key and one ref1
key, pairwise distinct; every issued query has population disabled. -/
theorem populate_one_query_per_class_c1_witness :
    ((([("pets", "Pet")].map Prod.fst)
        ++ ([("home", "Address")].map Prod.fst)).Nodup)
  ∧ (∀ q ∈ (populateModel [("pets", "Pet")] [("home", "Address")] none
        (fun _ _ => [])
        [⟨[("pets", FieldVal.varr [FieldVal.vid "aaaaaaaaaaaaaaaa"]),
           ("home", FieldVal.vid "bbbbbbbbbbbbbbbb")]⟩]).2,
      q.populateFlag = false) :=
  ⟨by decide,
   (populate_one_query_per_class_c1 [("pets", "Pet")] [("home", "Address")] none
      (fun _ _ => [])
      [⟨[("pets", FieldVal.varr [FieldVal.vid "aaaaaaaaaaaaaaaa"]),
         ("home", FieldVal.vid "bbbbbbbbbbbbbbbb")]⟩] (by decide)).1⟩

end Camo
